import Mathlib

/-!
Verification of the HttpPony HTTP/1.x library against its natural-language
specification.  Each C++ unit named by the claims is embedded shallowly:
strings are lists of characters, streams are explicit records, stateful
member functions become state-passing functions.  Sources:
src/include/httpony/http/post/form_data.hpp (multipart boundary),
src/src/http_parser.cpp (request parser), src/src/io/buffer.cpp
(NetworkInputBuffer), src/include/httpony/http/agent/server.hpp
(BasicPooledServer), and the URI/Path header.
-/

namespace Httpony

/-! ## Character helpers (melanolib::string::ascii, C locale ctype) -/

/-- ASCII alphabetic test, the behaviour of melanolib::string::ascii::is_alpha. -/
def isAlphaAscii (c : Char) : Bool :=
  ('a' ≤ c && c ≤ 'z') || ('A' ≤ c && c ≤ 'Z')

/-- ASCII digit test, the behaviour of melanolib::string::ascii::is_digit. -/
def isDigitAscii (c : Char) : Bool :=
  '0' ≤ c && c ≤ '9'

/-- Whitespace for the C locale std::isspace: space, tab, newline, vertical tab,
form feed, carriage return. -/
def isSpaceChar (c : Char) : Bool :=
  c = ' ' || c = '\t' || c = '\n' || c = Char.ofNat 11 || c = Char.ofNat 12 || c = '\r'

/-- ASCII lower-casing of a single character, as used by the case-insensitive
header comparator (melanolib::ICaseComparator). -/
def toLowerAscii (c : Char) : Char :=
  if 'A' ≤ c && c ≤ 'Z' then Char.ofNat (c.toNat + 32) else c

/-- Case-insensitive equality on names, the equivalence induced by the
ICaseComparator ordering that keys the Headers multimap. -/
def icaseEq (a b : List Char) : Bool :=
  a.map toLowerAscii = b.map toLowerAscii

/-! ## C1 — FormData boundary generation (form_data.hpp) -/

/-- FormData::notchar: returns a character that is different from the input
(the code comment); '0' for an alphabetic input, 'n' for a digit, 'y' otherwise. -/
def notchar (c : Char) : Char :=
  if isAlphaAscii c then '0'
  else if isDigitAscii c then 'n'
  else 'y'

/-- Loop body of FormData::generate_boundary: for each item of the input map
(in order), push 'p' when the item's value is no longer than the boundary built
so far, otherwise push a character differing from the value's character at the
current boundary length. -/
def generate_boundary_loop : List (List Char × List Char) → List Char → List Char
  | [], boundary => boundary
  | item :: rest, boundary =>
    if item.2.length ≤ boundary.length then
      generate_boundary_loop rest (boundary ++ ['p'])
    else
      generate_boundary_loop rest (boundary ++ [notchar (item.2.getD boundary.length 'p')])

/-- FormData::generate_boundary: scan the post data map; an empty result (empty
input) yields the default boundary "p0ny". -/
def generate_boundary (input : List (List Char × List Char)) : List Char :=
  let boundary := generate_boundary_loop input []
  if boundary = [] then "p0ny".data else boundary

/-- A request file as far as FormData::do_format consumes it: the multipart part
built for a file carries the file's contents as the part content (the
Content-Disposition and Content-Type headers of the part do not contain the
part content and are irrelevant to the boundary claim). -/
structure RequestFile where
  filename : List Char
  contents : List Char
deriving DecidableEq, Repr

/-- The contents of the multipart parts built by FormData::do_format: one part
per post field holding the field value, then one part per file holding the
file contents, in this order. -/
def do_format_part_contents (post : List (List Char × List Char))
    (files : List (List Char × RequestFile)) : List (List Char) :=
  post.map (fun item => item.2) ++ files.map (fun item => item.2.contents)

/-! ## C8 — Path construction (the URI header) -/

/-- Accumulating splitter: melanolib::string::char_split modelled at its
interface, splitting on the separator and dropping empty fragments (so a
leading '/' or doubled '/' produces no empty segment). -/
def char_split_loop (sep : Char) : List Char → List Char → List (List Char)
  | [], acc => if acc = [] then [] else [acc.reverse]
  | c :: rest, acc =>
    if c = sep then
      if acc = [] then char_split_loop sep rest []
      else acc.reverse :: char_split_loop sep rest []
    else char_split_loop sep rest (c :: acc)

/-- Split a string on a separator character, dropping empty fragments. -/
def char_split (s : List Char) (sep : Char) : List (List Char) :=
  char_split_loop sep s []

/-- Loop of the Path(string) constructor: a ".." segment pops the last accepted
segment when the data is non-empty, every other segment except "." is pushed. -/
def path_ctor_loop : List (List Char) → List (List Char) → List (List Char)
  | [], data => data
  | seg :: rest, data =>
    if seg = "..".data ∧ data ≠ [] then path_ctor_loop rest data.dropLast
    else if seg ≠ ".".data then path_ctor_loop rest (data ++ [seg])
    else path_ctor_loop rest data

/-- Path::Path(const std::string&) without url decoding: split on '/' and
collapse "." and ".." segments. -/
def path_from_string (s : List Char) : List (List Char) :=
  path_ctor_loop (char_split s '/') []

/-- Path::string(): "/" followed by the segments joined with "/". -/
def path_to_string (data : List (List Char)) : List Char :=
  '/' :: List.intercalate "/".data data

/-- One splitter step as the claim words it: "discards "." segments, and makes
each ".." segment remove the previously accepted segment when one exists"
(every other segment is accepted).  Stated from the claim to be compared with
the constructor loop above. -/
def path_claim_step (data : List (List Char)) (seg : List Char) : List (List Char) :=
  if seg = ".".data then data
  else if seg = "..".data ∧ data ≠ [] then data.dropLast
  else data ++ [seg]

/-! ## Lemmas and theorems for C1 -/

theorem notchar_ne (c : Char) : notchar c ≠ c := by
  unfold notchar
  split
  · rename_i h
    rintro rfl
    exact absurd h (by decide)
  · split
    · rename_i h
      rintro rfl
      exact absurd h (by decide)
    · rename_i h1 h2
      rintro rfl
      exact absurd (show isAlphaAscii 'y' = true by decide) h1

theorem generate_boundary_loop_append (input : List (List Char × List Char))
    (b : List Char) : ∃ t, generate_boundary_loop input b = b ++ t := by
  induction input generalizing b with
  | nil => exact ⟨[], by simp [generate_boundary_loop]⟩
  | cons item rest ih =>
    unfold generate_boundary_loop
    split
    · obtain ⟨t, ht⟩ := ih (b ++ ['p'])
      exact ⟨'p' :: t, by simpa using ht⟩
    · obtain ⟨t, ht⟩ := ih (b ++ [notchar (item.2.getD b.length 'p')])
      exact ⟨notchar (item.2.getD b.length 'p') :: t, by simpa using ht⟩

theorem generate_boundary_loop_length (input : List (List Char × List Char))
    (b : List Char) :
    (generate_boundary_loop input b).length = b.length + input.length := by
  induction input generalizing b with
  | nil => simp [generate_boundary_loop]
  | cons item rest ih =>
    unfold generate_boundary_loop
    split <;> rw [ih] <;> simp <;> omega

theorem getD_concat_length (l : List Char) (x d : Char) :
    (l ++ [x]).getD l.length d = x := by
  rw [List.getD_eq_getElem _ _ (by simp)]
  exact List.getElem_concat_length _ _ _ rfl _

theorem generate_boundary_loop_getD (input : List (List Char × List Char))
    (b : List Char) (i : Nat) (h : i < input.length) :
    (generate_boundary_loop input b).getD (b.length + i) 'p' =
      (if (input.getD i ([], [])).2.length ≤ b.length + i then 'p'
       else notchar ((input.getD i ([], [])).2.getD (b.length + i) 'p')) := by
  induction input generalizing b i with
  | nil => simp at h
  | cons item rest ih =>
    match i with
    | 0 =>
      simp only [Nat.add_zero, List.getD_cons_zero]
      unfold generate_boundary_loop
      split
      · obtain ⟨t, ht⟩ := generate_boundary_loop_append rest (b ++ ['p'])
        rw [ht, List.getD_append _ _ _ _ (by simp), getD_concat_length]
      · obtain ⟨t, ht⟩ :=
          generate_boundary_loop_append rest (b ++ [notchar (item.2.getD b.length 'p')])
        rw [ht, List.getD_append _ _ _ _ (by simp), getD_concat_length]
    | Nat.succ j =>
      have hj : j < rest.length := by simpa using h
      simp only [List.getD_cons_succ]
      unfold generate_boundary_loop
      split
      · have harith : b.length + (j + 1) = (b ++ ['p']).length + j := by
          simp
          omega
        rw [harith, ih (b ++ ['p']) j hj]
      · have harith : b.length + (j + 1) =
            (b ++ [notchar (item.2.getD b.length 'p')]).length + j := by
          simp
          omega
        rw [harith, ih (b ++ [notchar (item.2.getD b.length 'p')]) j hj]

/-- C1 (amended): the boundary generated by FormData::generate_boundary from
the post data map is "p0ny" for an empty map, and otherwise is never a prefix
of any post field value.  (The claim's stronger property — that the boundary
does not appear anywhere inside any part content, file contents included —
fails; see the counterexample.) -/
theorem C1_boundary_not_in_post_values (post : List (List Char × List Char)) :
    (post = [] → generate_boundary post = "p0ny".data) ∧
    ∀ item ∈ post, ¬ (generate_boundary post <+: item.2) := by
  constructor
  · rintro rfl
    rfl
  · intro item hmem hpref
    obtain ⟨i, hi, hget⟩ := List.getElem_of_mem hmem
    have hne : generate_boundary_loop post [] ≠ [] := by
      intro hemp
      have := generate_boundary_loop_length post []
      rw [hemp] at this
      simp at this
      omega
    have hB : generate_boundary post = generate_boundary_loop post [] := by
      unfold generate_boundary
      simp [hne]
    have hlen : (generate_boundary post).length = post.length := by
      rw [hB, generate_boundary_loop_length]
      simp
    have hchar := generate_boundary_loop_getD post [] i hi
    simp only [List.length_nil, Nat.zero_add] at hchar
    rw [← hB] at hchar
    have hgetD : post.getD i ([], []) = item := by
      rw [List.getD_eq_getElem _ _ hi, hget]
    rw [hgetD] at hchar
    have hlenle : (generate_boundary post).length ≤ item.2.length :=
      hpref.length_le
    obtain ⟨t, ht⟩ := hpref
    by_cases hcase : item.2.length ≤ i
    · omega
    · rw [if_neg hcase] at hchar
      have hval : item.2.getD i 'p' = (generate_boundary post).getD i 'p' := by
        rw [← ht, List.getD_append _ _ _ _ (by omega)]
      rw [hval] at hchar
      exact notchar_ne _ hchar.symm

/-- Witness for C1 (amended) at the post map with the single field "a" = "bc". -/
theorem C1_boundary_not_in_post_values_witness :
    generate_boundary [("a".data, "bc".data)] = "0".data ∧
    ¬ (generate_boundary [("a".data, "bc".data)] <+: "bc".data) :=
  ⟨by decide,
   (C1_boundary_not_in_post_values [("a".data, "bc".data)]).2
     ("a".data, "bc".data) (by simp)⟩

/-- C1 counterexample: with the post map {"a": "x0"} and one file with
contents "0zz", the generated boundary "0" appears as a substring of the post
value "x0" (and is even a prefix of the file contents, which
generate_boundary never scans), so the boundary does appear inside part
contents of FormData::do_format. -/
theorem C1_counterexample :
    generate_boundary [("a".data, "x0".data)] = "0".data ∧
    do_format_part_contents [("a".data, "x0".data)]
        [("g".data, ⟨"a.txt".data, "0zz".data⟩)] = ["x0".data, "0zz".data] ∧
    ¬ ∀ part ∈ do_format_part_contents [("a".data, "x0".data)]
        [("g".data, ⟨"a.txt".data, "0zz".data⟩)],
      ¬ (generate_boundary [("a".data, "x0".data)] <:+: part) := by
  refine ⟨by decide, by decide, fun hall => hall "x0".data (by decide) (by decide)⟩

/-! ## Theorems for C8 -/

theorem path_ctor_loop_eq_foldl (segs : List (List Char)) (data : List (List Char)) :
    path_ctor_loop segs data = segs.foldl path_claim_step data := by
  induction segs generalizing data with
  | nil => rfl
  | cons seg rest ih =>
    have hstep : (if seg = "..".data ∧ data ≠ [] then data.dropLast
        else if seg ≠ ".".data then data ++ [seg] else data) =
        path_claim_step data seg := by
      unfold path_claim_step
      by_cases h1 : seg = ".".data
      · subst h1
        have c1 : ¬ (".".data = "..".data ∧ data ≠ []) := by
          rintro ⟨hc, -⟩
          exact absurd hc (by decide)
        rw [if_neg c1, if_neg (by simp), if_pos rfl]
      · by_cases h2 : seg = "..".data
        · subst h2
          by_cases h3 : data = []
          · subst h3
            have c1 : ¬ ("..".data = "..".data ∧ ([] : List (List Char)) ≠ []) := by
              simp
            rw [if_neg c1, if_pos (by decide), if_neg h1, if_neg c1]
          · have c1 : "..".data = "..".data ∧ data ≠ [] := ⟨rfl, h3⟩
            rw [if_pos c1, if_neg h1, if_pos c1]
        · have c1 : ¬ (seg = "..".data ∧ data ≠ []) := by
            rintro ⟨hc, -⟩
            exact h2 hc
          rw [if_neg c1, if_pos h1, if_neg h1, if_neg c1]
    unfold path_ctor_loop
    simp only [List.foldl_cons, ← hstep]
    split
    · rw [ih]
    · split
      · rw [ih]
      · rw [ih]

/-- C8: constructing a Path from a string splits it on '/', discards "."
segments, and makes each ".." segment remove the previously accepted segment
when one exists (the constructor loop agrees with that description stated as a
fold), so that Path("/a/b/../c").string() is "/a/c" and
Path("/a/./b").string() is "/a/b". -/
theorem C8_path_collapse :
    (∀ s : List Char,
      path_from_string s = (char_split s '/').foldl path_claim_step []) ∧
    path_to_string (path_from_string "/a/b/../c".data) = "/a/c".data ∧
    path_to_string (path_from_string "/a/./b".data) = "/a/b".data := by
  refine ⟨fun s => path_ctor_loop_eq_foldl _ _, by decide, by decide⟩

/-! ## C4 — BasicPooledServer::thread_run (server.hpp) -/

/-- Body of one pool worker, BasicPooledServer::thread_run, modelled
sequentially for a single worker: the queue and pause flag are given at entry
and no other thread interferes; the success of the try_lock on the queue mutex
is the parameter try_lock_succeeds.  Connections are identified by numbers.
The function returns the connections passed to ServerT::on_connection, the
remaining queue, and the final value of the worker's running flag.

Control flow of the source: the body is a do { ... } while (false) statement.
After ServerT::on_connection(connection), when not paused and the try_lock
succeeds and the queue is non-empty, the worker pops the queue front, calls the
thread_continue hook, and executes a continue statement.  In C++ a continue
inside a do-while jumps to the evaluation of the loop condition, which is
false here, so the loop body is never re-entered: the popped connection is not
passed to on_connection.  Afterwards running[thread_index] is set to false. -/
def thread_run (pause : Bool) (try_lock_succeeds : Bool) (queue : List Nat)
    (connection : Nat) : List Nat × List Nat × Bool :=
  let processed := [connection]
  if pause = false then
    if try_lock_succeeds && pause = false && queue ≠ [] then
      (processed, queue.tail, false)
    else
      (processed, queue, false)
  else
    (processed, queue, false)

/-! ## C7 — BasicPooledServer::wait and resize_pool (server.hpp) -/

/-- The state of the pooled server that wait and resize_pool read or write:
the worker thread ids, the queue of pending connections, and the pause flag. -/
structure PooledServerState where
  threads : List Nat
  queue : List Nat
  pause : Bool
deriving DecidableEq, Repr

/-- BasicPooledServer::in_pool: whether the current thread id equals one of the
pool workers' ids. -/
def in_pool (s : PooledServerState) (current_thread : Nat) : Bool :=
  s.threads.contains current_thread

/-- std::vector::resize on the thread list: keep the first n elements, pad with
default-constructed entries (id 0 stands for a default thread id). -/
def list_resize (l : List Nat) (n : Nat) : List Nat :=
  l.take n ++ List.replicate (n - l.length) 0

/-- BasicPooledServer::do_resize_pool: pause, join every worker, resize the
thread/running/mutex vectors, clear pause. -/
def do_resize_pool (s : PooledServerState) (n : Nat) : PooledServerState :=
  { threads := list_resize s.threads n, queue := s.queue, pause := false }

/-- BasicPooledServer::wait.  A call from inside a pooled thread throws
std::logic_error before touching any state; otherwise pause is set, all workers
are joined, and pause is cleared again.  The first component is the thrown
message (or ok), the second the resulting pool state. -/
def pool_wait (s : PooledServerState) (current_thread : Nat) :
    Except String Unit × PooledServerState :=
  if in_pool s current_thread then
    (Except.error "Cannot call BasicPooledServer::wait inside a pooled thread", s)
  else
    (Except.ok (), { s with pause := false })

/-- BasicPooledServer::resize_pool.  n = 0 or a call from inside a pooled
thread throws std::logic_error before touching any state; otherwise
do_resize_pool runs. -/
def resize_pool (s : PooledServerState) (current_thread : Nat) (n : Nat) :
    Except String Unit × PooledServerState :=
  if n = 0 then
    (Except.error "Thread pool must not be empty", s)
  else if in_pool s current_thread then
    (Except.error "Cannot call BasicPooledServer::resize_pool inside a pooled thread", s)
  else
    (Except.ok (), do_resize_pool s n)

/-- Whether one string ends in another (message suffix check). -/
def strEndsWith (s t : String) : Bool :=
  t.data.isSuffixOf s.data

/-! ## C5, C10 — NetworkInputBuffer (io/buffer.cpp) -/

/-- NetworkInputBuffer::unlimited_input():
std::numeric_limits of std::size_t, its max(). -/
def unlimited_input : Nat := 2 ^ 64 - 1

/-- NetworkInputBuffer::chunk_size(). -/
def chunk_size : Nat := 1024

/-- The observable state of a NetworkInputBuffer: the number of bytes sitting
in the get area (size()), the pending expected input, the total number of
bytes read from the socket, and the operation status ("" is ok). -/
structure NetworkInputBuffer where
  buf_size : Nat
  expected_input : Nat
  total_read_size : Nat
  status : String
deriving DecidableEq, Repr

/-- NetworkInputBuffer::read_some(size, status): when the requested size is
already buffered it returns that size untouched; otherwise it asks the socket
for the missing bytes.  The number of bytes the blocking socket read actually
delivers, and the status it reports, are the parameters delivered and
sock_status (a socket returns at most the requested amount). -/
def buffer_read_some (b : NetworkInputBuffer) (size delivered : Nat)
    (sock_status : String) : Nat × NetworkInputBuffer :=
  let prev_size := b.buf_size
  if size ≤ prev_size then (size, b)
  else
    (delivered + prev_size,
     { b with
        buf_size := b.buf_size + delivered,
        total_read_size := b.total_read_size + delivered,
        status := sock_status })

/-- NetworkInputBuffer::expect_input(byte_count). -/
def expect_input (b : NetworkInputBuffer) (byte_count : Nat) : NetworkInputBuffer :=
  if byte_count = unlimited_input then { b with expected_input := unlimited_input }
  else if byte_count > b.buf_size then { b with expected_input := byte_count - b.buf_size }
  else { b with expected_input := 0 }

/-- NetworkInputBuffer::total_expected_size(). -/
def total_expected_size (b : NetworkInputBuffer) : Nat :=
  if b.expected_input = unlimited_input then unlimited_input
  else b.total_read_size + b.expected_input

/-- The request size computed by NetworkInputBuffer::underflow when it refills:
the expected input capped at chunk_size(). -/
def underflow_request_size (b : NetworkInputBuffer) : Nat :=
  if b.expected_input > chunk_size then chunk_size else b.expected_input

/-- NetworkInputBuffer::underflow.  The base-class underflow serves a buffered
byte when the get area is non-empty; on an empty get area with a non-zero
expected input the buffer refills through read_some and then updates
expected_input or the status.  delivered and sock_status parametrise the
socket read as in buffer_read_some. -/
def buffer_underflow (b : NetworkInputBuffer) (delivered : Nat)
    (sock_status : String) : NetworkInputBuffer :=
  if b.buf_size ≠ 0 then b
  else if b.expected_input > 0 then
    let request_size := underflow_request_size b
    let r := buffer_read_some b request_size delivered sock_status
    let read_size := r.1
    let b1 := r.2
    if b1.expected_input ≠ unlimited_input then
      if read_size ≤ b1.expected_input then
        { b1 with expected_input := b1.expected_input - read_size }
      else
        { b1 with status := "unexpected data in the stream" }
    else b1
  else b

/-! ## Theorems for C4 — the pool worker drops the connection it pops -/

/-- C4: the claim says that after processing its initial connection a worker
that is not paused and wins the try_lock takes the next item from the
non-empty queue and processes that connection too, so that every connection a
worker pops from the queue is passed to the server's on_connection.  The code
does not do this: with initial connection 1 and queue [2], the worker pops 2
(the queue empties) but passes only connection 1 to ServerT::on_connection,
because the continue statement inside do-while(false) leaves the loop; the
running flag is cleared afterwards.  Connection 2 is silently dropped. -/
theorem C4_thread_run_drops_popped_connection :
    thread_run false true [2] 1 = ([1], [], false) ∧
      2 ∉ (thread_run false true [2] 1).1 := by
  constructor
  · rfl
  · decide

/-! ## Theorems for C7 — wait / resize_pool precondition violations -/

/-- C7: resize_pool(0) fails with std::logic_error, and wait() or
resize_pool(n) called from a thread whose id is one of the pool workers' ids
fails with a std::logic_error whose message ends in "inside a pooled thread";
in every one of these cases the pool state (threads, queue, pause flag) is
returned unchanged. -/
theorem C7_pool_precondition_violations (s : PooledServerState)
    (current : Nat) (n : Nat) (hin : in_pool s current = true) (hn : n ≠ 0) :
    ((resize_pool s current 0).1 = Except.error "Thread pool must not be empty" ∧
      (resize_pool s current 0).2 = s) ∧
    (∃ m, (pool_wait s current).1 = Except.error m ∧
      strEndsWith m "inside a pooled thread" = true ∧ (pool_wait s current).2 = s) ∧
    (∃ m, (resize_pool s current n).1 = Except.error m ∧
      strEndsWith m "inside a pooled thread" = true ∧ (resize_pool s current n).2 = s) := by
  refine ⟨⟨by simp [resize_pool], by simp [resize_pool]⟩,
    ⟨"Cannot call BasicPooledServer::wait inside a pooled thread", ?_, by decide, ?_⟩,
    ⟨"Cannot call BasicPooledServer::resize_pool inside a pooled thread", ?_, by decide, ?_⟩⟩
  · simp [pool_wait, hin]
  · simp [pool_wait, hin]
  · simp [resize_pool, hin, hn]
  · simp [resize_pool, hin, hn]

/-- Witness for C7 at a concrete pool: one worker with id 7, called from
thread 7, resize to 3. -/
theorem C7_pool_precondition_violations_witness :
    ((resize_pool ⟨[7], [4], true⟩ 7 0).1 = Except.error "Thread pool must not be empty" ∧
      (resize_pool ⟨[7], [4], true⟩ 7 0).2 = ⟨[7], [4], true⟩) ∧
    (∃ m, (pool_wait ⟨[7], [4], true⟩ 7).1 = Except.error m ∧
      strEndsWith m "inside a pooled thread" = true ∧
      (pool_wait ⟨[7], [4], true⟩ 7).2 = ⟨[7], [4], true⟩) ∧
    (∃ m, (resize_pool ⟨[7], [4], true⟩ 7 3).1 = Except.error m ∧
      strEndsWith m "inside a pooled thread" = true ∧
      (resize_pool ⟨[7], [4], true⟩ 7 3).2 = ⟨[7], [4], true⟩) :=
  C7_pool_precondition_violations ⟨[7], [4], true⟩ 7 3 (by decide) (by decide)

/-! ## Theorems for C5 — underflow refill -/

/-- C5 counterexample: the claim states that after the refill, whenever the
bytes read are at most expected_input, expected_input is decremented by the
bytes read.  With expected_input at the unlimited sentinel and one byte
delivered by the socket, the bytes read (1) are at most expected_input, yet
the code leaves expected_input at the sentinel instead of decrementing it. -/
theorem C5_counterexample :
    1 ≤ (⟨0, unlimited_input, 0, ""⟩ : NetworkInputBuffer).expected_input ∧
    buffer_underflow ⟨0, unlimited_input, 0, ""⟩ 1 "" =
      ⟨1, unlimited_input, 1, ""⟩ ∧
    unlimited_input ≠ unlimited_input - 1 := by
  refine ⟨by decide, by decide, by decide⟩

/-- C5 (amended): when the buffer underflows on an empty get area with a
non-zero expected_input, it requests min(expected, 1024) bytes from the socket
(1024 when expecting unlimited input); after the refill, when expected_input
is not the unlimited sentinel, it is decremented by the bytes read if those
are at most expected_input and otherwise the status becomes the error
"unexpected data in the stream"; when expecting unlimited input,
expected_input stays at the sentinel. -/
theorem C5_underflow_refill (b : NetworkInputBuffer) (delivered : Nat)
    (sock_status : String) (hbuf : b.buf_size = 0) (hexp : b.expected_input ≠ 0)
    (hdel : delivered ≤ underflow_request_size b) :
    underflow_request_size b = min b.expected_input chunk_size ∧
    (b.expected_input = unlimited_input → underflow_request_size b = chunk_size) ∧
    (b.expected_input ≠ unlimited_input →
      (delivered ≤ b.expected_input →
        (buffer_underflow b delivered sock_status).expected_input =
          b.expected_input - delivered) ∧
      (delivered > b.expected_input →
        (buffer_underflow b delivered sock_status).status =
          "unexpected data in the stream")) ∧
    (b.expected_input = unlimited_input →
      (buffer_underflow b delivered sock_status).expected_input = unlimited_input) := by
  have hreq : underflow_request_size b = min b.expected_input chunk_size := by
    unfold underflow_request_size
    split <;> omega
  have hpos : 0 < b.expected_input := Nat.pos_of_ne_zero hexp
  have hrpos : 0 < underflow_request_size b := by
    rw [hreq]
    exact lt_min hpos (by norm_num [chunk_size])
  have hread : buffer_read_some b (underflow_request_size b) delivered sock_status =
      (delivered + b.buf_size,
       { b with buf_size := b.buf_size + delivered,
                total_read_size := b.total_read_size + delivered,
                status := sock_status }) := by
    unfold buffer_read_some
    rw [if_neg (by omega)]
  have hmain : buffer_underflow b delivered sock_status =
      if b.expected_input ≠ unlimited_input then
        if delivered + b.buf_size ≤ b.expected_input then
          { b with buf_size := b.buf_size + delivered,
                   total_read_size := b.total_read_size + delivered,
                   status := sock_status,
                   expected_input := b.expected_input - (delivered + b.buf_size) }
        else
          { b with buf_size := b.buf_size + delivered,
                   total_read_size := b.total_read_size + delivered,
                   status := "unexpected data in the stream" }
      else
        { b with buf_size := b.buf_size + delivered,
                 total_read_size := b.total_read_size + delivered,
                 status := sock_status } := by
    unfold buffer_underflow
    rw [if_neg (by omega), if_pos hpos]
    simp only [hread]
  refine ⟨hreq, ?_, ?_, ?_⟩
  · intro hu
    rw [hreq, hu]
    exact min_eq_right (by norm_num [unlimited_input, chunk_size])
  · intro hfin
    rw [hmain, if_pos hfin]
    constructor
    · intro hle
      rw [if_pos (by omega)]
      simp only [hbuf]
      omega
    · intro hgt
      rw [if_neg (by omega)]
  · intro hu
    rw [hmain, if_neg (by simp [hu])]
    exact hu

/-- Witness for C5 (amended) at the concrete buffer expecting 5 bytes with 3
delivered. -/
theorem C5_underflow_refill_witness :
    underflow_request_size ⟨0, 5, 0, ""⟩ = min 5 chunk_size ∧
    ((5 : Nat) = unlimited_input → underflow_request_size ⟨0, 5, 0, ""⟩ = chunk_size) ∧
    ((5 : Nat) ≠ unlimited_input →
      (3 ≤ 5 → (buffer_underflow ⟨0, 5, 0, ""⟩ 3 "").expected_input = 5 - 3) ∧
      (3 > 5 → (buffer_underflow ⟨0, 5, 0, ""⟩ 3 "").status =
        "unexpected data in the stream")) ∧
    ((5 : Nat) = unlimited_input →
      (buffer_underflow ⟨0, 5, 0, ""⟩ 3 "").expected_input = unlimited_input) :=
  C5_underflow_refill ⟨0, 5, 0, ""⟩ 3 "" (by decide) (by decide) (by decide)

/-! ## Theorems for C10 — expect_input and the expected-size identity -/

/-- C10: for every finite byte count N, expect_input(N) stores
max(N − size(), 0) as the pending expected input (only bytes not already
buffered); whenever expected_input is finite, total_expected_size equals
total_read_size + expected_input, and this identity is preserved by
read_some, by expect_input and by underflow. -/
theorem C10_expect_input_identity (b b2 : NetworkInputBuffer) (N : Nat)
    (size delivered : Nat) (sock_status : String) (hN : N ≠ unlimited_input) :
    ((expect_input b N).expected_input : Int) = max ((N : Int) - (b.buf_size : Int)) 0 ∧
    (b2.expected_input ≠ unlimited_input →
      total_expected_size b2 = b2.total_read_size + b2.expected_input) ∧
    ((buffer_read_some b2 size delivered sock_status).2.expected_input ≠ unlimited_input →
      total_expected_size (buffer_read_some b2 size delivered sock_status).2 =
        (buffer_read_some b2 size delivered sock_status).2.total_read_size +
          (buffer_read_some b2 size delivered sock_status).2.expected_input) ∧
    ((expect_input b2 N).expected_input ≠ unlimited_input →
      total_expected_size (expect_input b2 N) =
        (expect_input b2 N).total_read_size + (expect_input b2 N).expected_input) ∧
    ((buffer_underflow b2 delivered sock_status).expected_input ≠ unlimited_input →
      total_expected_size (buffer_underflow b2 delivered sock_status) =
        (buffer_underflow b2 delivered sock_status).total_read_size +
          (buffer_underflow b2 delivered sock_status).expected_input) := by
  have key : ∀ c : NetworkInputBuffer, c.expected_input ≠ unlimited_input →
      total_expected_size c = c.total_read_size + c.expected_input := by
    intro c hc
    unfold total_expected_size
    simp [hc]
  refine ⟨?_, key b2, key _, key _, key _⟩
  unfold expect_input
  simp only [hN, if_false]
  split
  · rename_i hgt
    rw [max_eq_left (by omega)]
    push_cast
    omega
  · rename_i hle
    rw [max_eq_right (by omega)]
    simp

/-- Witness for C10 at a concrete buffer: 3 bytes buffered, expect 10, then a
read delivering 4. -/
theorem C10_expect_input_identity_witness :
    ((expect_input ⟨3, 0, 3, ""⟩ 10).expected_input : Int) =
      max ((10 : Int) - (3 : Int)) 0 ∧
    ((⟨0, 7, 3, ""⟩ : NetworkInputBuffer).expected_input ≠ unlimited_input →
      total_expected_size ⟨0, 7, 3, ""⟩ = 3 + 7) ∧
    ((buffer_read_some ⟨0, 7, 3, ""⟩ 7 4 "").2.expected_input ≠ unlimited_input →
      total_expected_size (buffer_read_some ⟨0, 7, 3, ""⟩ 7 4 "").2 =
        (buffer_read_some ⟨0, 7, 3, ""⟩ 7 4 "").2.total_read_size +
          (buffer_read_some ⟨0, 7, 3, ""⟩ 7 4 "").2.expected_input) ∧
    ((expect_input ⟨0, 7, 3, ""⟩ 10).expected_input ≠ unlimited_input →
      total_expected_size (expect_input ⟨0, 7, 3, ""⟩ 10) =
        (expect_input ⟨0, 7, 3, ""⟩ 10).total_read_size +
          (expect_input ⟨0, 7, 3, ""⟩ 10).expected_input) ∧
    ((buffer_underflow ⟨0, 7, 3, ""⟩ 4 "").expected_input ≠ unlimited_input →
      total_expected_size (buffer_underflow ⟨0, 7, 3, ""⟩ 4 "") =
        (buffer_underflow ⟨0, 7, 3, ""⟩ 4 "").total_read_size +
          (buffer_underflow ⟨0, 7, 3, ""⟩ 4 "").expected_input) :=
  C10_expect_input_identity ⟨3, 0, 3, ""⟩ ⟨0, 7, 3, ""⟩ 10 7 4 "" (by decide)

/-! ## The input stream (std::istream over the connection buffer)

The parser of http_parser.cpp reads from a std::istream.  The stream is
modelled by the characters not yet extracted plus the two state flags the
parser interacts with: eofbit (set when an operation hits the end of the
data) and failbit (set when an operation fails; the boolean conversion of the
stream is the negation of failbit).  Every operation first performs the
sentry check of the standard: on a stream with eofbit or failbit already set
the operation fails and sets failbit.  The putback buffer is modelled at the
two unget call sites of the parser, which both follow a get immediately, by
restoring the character just extracted. -/

structure IStream where
  data : List Char
  eofbit : Bool
  failbit : Bool
deriving DecidableEq, Repr

/-- Build the stream for a fresh request: all bytes pending, no flags. -/
def mkStream (s : String) : IStream :=
  ⟨s.data, false, false⟩

/-- The boolean conversion of a std::istream: not fail(). -/
def IStream.toBool (s : IStream) : Bool :=
  !s.failbit

/-- istream::get(): extract one character; at the end of data it returns eof
and sets eofbit and failbit (no character was extracted). -/
def IStream.get (s : IStream) : Option Char × IStream :=
  if s.eofbit || s.failbit then (none, { s with failbit := true })
  else match s.data with
    | [] => (none, { s with eofbit := true, failbit := true })
    | c :: rest => (some c, { s with data := rest })

/-- istream::peek(): look at the next character without extracting; at the end
of data it returns eof and sets eofbit only. -/
def IStream.peek (s : IStream) : Option Char × IStream :=
  if s.eofbit || s.failbit then (none, { s with failbit := true })
  else match s.data with
    | [] => (none, { s with eofbit := true })
    | c :: _ => (some c, s)

/-- istream::ignore(1, delim): extract and discard at most one character (one
character always stops the count, whether or not it is the delimiter); at the
end of data only eofbit is set. -/
def IStream.ignore1 (s : IStream) : IStream :=
  if s.eofbit || s.failbit then { s with failbit := true }
  else match s.data with
    | [] => { s with eofbit := true }
    | _ :: rest => { s with data := rest }

/-- istream::unget() after a get that extracted the character c: eofbit is
cleared first; a failed stream keeps failbit and restores nothing. -/
def IStream.ungetChar (s : IStream) (c : Char) : IStream :=
  if s.failbit then { s with eofbit := false }
  else { s with eofbit := false, data := c :: s.data }

/-- istream::unget() after a get that extracted nothing (the eof case): eofbit
is cleared, the sentry then fails on failbit and nothing is restored. -/
def IStream.ungetNone (s : IStream) : IStream :=
  { s with eofbit := false }

/-- std::getline(istream, value, delim): sentry check, then extract
characters into the cleared value until the delimiter (extracted, not stored)
or the end of data; at the end of data eofbit is set, and failbit as well
when nothing was extracted. -/
def IStream.getline (s : IStream) (delim : Char) : List Char × IStream :=
  if s.eofbit || s.failbit then ([], { s with failbit := true })
  else
    let value := s.data.takeWhile (fun c => c ≠ delim)
    match s.data.dropWhile (fun c => c ≠ delim) with
    | [] => (value, { s with data := [], eofbit := true, failbit := value.isEmpty })
    | _ :: rest => (value, { s with data := rest })

/-- Whitespace skipping of a formatted extraction (the sentry with skipws):
discard leading whitespace; eofbit is set when the data runs out during the
skip. -/
def IStream.skipWs (s : IStream) : IStream :=
  match s.data.dropWhile isSpaceChar with
  | [] => { s with data := [], eofbit := true }
  | rest => { s with data := rest }

/-- Extraction step of operator>> into a std::string: extract non-whitespace
characters until whitespace or the end of data (eofbit on end of data). -/
def IStream.takeToken (s : IStream) : List Char × IStream :=
  let tok := s.data.takeWhile (fun c => isSpaceChar c = false)
  match s.data.dropWhile (fun c => isSpaceChar c = false) with
  | [] => (tok, { s with data := [], eofbit := true })
  | rest => (tok, { s with data := rest })

/-- operator>> into a std::string: sentry (fails on a set eofbit or failbit,
and when only whitespace remains), then the extraction step.  On a failed
sentry the target string is left cleared. -/
def IStream.extractToken (s : IStream) : List Char × IStream :=
  if s.eofbit || s.failbit then ([], { s with failbit := true })
  else if (IStream.skipWs s).eofbit then ([], { IStream.skipWs s with failbit := true })
  else IStream.takeToken (IStream.skipWs s)

/-! ### Length bounds for the stream primitives -/

theorem IStream.get_length (s : IStream) :
    (IStream.get s).2.data.length ≤ s.data.length := by
  unfold IStream.get
  split
  · simp
  · split <;> simp_all

theorem IStream.get_some_length {s s1 : IStream} {c : Char}
    (h : IStream.get s = (some c, s1)) :
    s1.data.length + 1 = s.data.length := by
  unfold IStream.get at h
  split at h
  · simp at h
  · split at h
    · simp at h
    · rename_i c' rest heq
      obtain ⟨-, rfl⟩ := Prod.mk.injEq .. ▸ h
      simp [heq]

theorem IStream.get_none_data {s s1 : IStream} (h : IStream.get s = (none, s1)) :
    s1.data = s.data ∧ s1.failbit = true := by
  unfold IStream.get at h
  split at h
  · obtain ⟨-, rfl⟩ := Prod.mk.injEq .. ▸ h
    exact ⟨rfl, rfl⟩
  · split at h
    · obtain ⟨-, rfl⟩ := Prod.mk.injEq .. ▸ h
      exact ⟨rfl, rfl⟩
    · simp at h

theorem IStream.peek_length (s : IStream) :
    (IStream.peek s).2.data.length ≤ s.data.length := by
  unfold IStream.peek
  split
  · simp
  · split <;> simp_all

theorem IStream.peek_some {s s1 : IStream} {c : Char}
    (h : IStream.peek s = (some c, s1)) :
    s1 = s ∧ (∃ rest, s.data = c :: rest) ∧ s.eofbit = false ∧ s.failbit = false := by
  unfold IStream.peek at h
  split at h
  · simp at h
  · rename_i hbits
    split at h
    · simp at h
    · rename_i c' rest heq
      rw [Prod.mk.injEq] at h
      obtain ⟨hc, hs⟩ := h
      injection hc with hc
      subst hc
      subst hs
      simp only [Bool.or_eq_true, not_or, Bool.not_eq_true] at hbits
      exact ⟨rfl, ⟨rest, heq⟩, hbits.1, hbits.2⟩

theorem IStream.peek_none_data {s s1 : IStream} (h : IStream.peek s = (none, s1)) :
    s1.data = s.data := by
  unfold IStream.peek at h
  split at h
  · obtain ⟨-, rfl⟩ := Prod.mk.injEq .. ▸ h
    rfl
  · split at h
    · obtain ⟨-, rfl⟩ := Prod.mk.injEq .. ▸ h
      rfl
    · simp at h

theorem IStream.ignore1_length (s : IStream) :
    (IStream.ignore1 s).data.length ≤ s.data.length := by
  unfold IStream.ignore1
  split
  · simp
  · split <;> simp_all

theorem dropWhile_length_le (p : Char → Bool) (l : List Char) :
    (l.dropWhile p).length ≤ l.length := by
  induction l with
  | nil => simp
  | cons c rest ih =>
    rw [List.dropWhile_cons]
    split
    · exact le_trans ih (by simp)
    · simp

theorem IStream.getline_length (s : IStream) (delim : Char) :
    (IStream.getline s delim).2.data.length ≤ s.data.length := by
  unfold IStream.getline
  split
  · simp
  · have h := dropWhile_length_le (fun c => c ≠ delim) s.data
    split
    · simp
    · rename_i rest heq
      rw [heq] at h
      simp only []
      simp at h ⊢
      omega

theorem IStream.skipWs_length (s : IStream) :
    (IStream.skipWs s).data.length ≤ s.data.length := by
  unfold IStream.skipWs
  have h := dropWhile_length_le isSpaceChar s.data
  split
  · simp
  · exact h

theorem IStream.takeToken_length (s : IStream) :
    (IStream.takeToken s).2.data.length ≤ s.data.length := by
  unfold IStream.takeToken
  have h := dropWhile_length_le (fun c => decide (isSpaceChar c = false)) s.data
  split
  · simp
  · exact h

theorem IStream.extractToken_length (s : IStream) :
    (IStream.extractToken s).2.data.length ≤ s.data.length := by
  unfold IStream.extractToken
  split
  · simp
  · split
    · simpa using IStream.skipWs_length s
    · exact le_trans (IStream.takeToken_length _) (IStream.skipWs_length s)

/-! ## The request parser (http_parser.cpp) -/

/-- An ordered multimap as a list of key/value pairs in insertion order (the
melanolib OrderedMultimap underlying Headers and DataMap). -/
abbrev HeaderList := List (List Char × List Char)

/-- skip_line: extract characters until a newline was extracted or the stream
fails. -/
def skip_line (s : IStream) : IStream :=
  if s.failbit = true then s
  else match hg : IStream.get s with
    | (none, s1) => s1
    | (some c, s1) => if c = '\n' then s1 else skip_line s1
termination_by s.data.length
decreasing_by
  have := IStream.get_some_length hg
  omega

theorem skip_line_length (s : IStream) :
    (skip_line s).data.length ≤ s.data.length := by
  induction s using skip_line.induct with
  | case1 s hf =>
    unfold skip_line
    rw [if_pos hf]
  | case2 s hf s1 hg =>
    unfold skip_line
    rw [if_neg hf]
    split
    · rename_i s2 heq
      rw [hg] at heq
      injection heq with h1 h2
      subst h2
      simp [(IStream.get_none_data hg).1]
    · rename_i c s2 heq
      rw [hg] at heq
      simp at heq
  | case3 s hf s1 hg =>
    unfold skip_line
    rw [if_neg hf]
    split
    · rename_i s2 heq
      rw [hg] at heq
      simp at heq
    · rename_i c s2 heq
      rw [hg] at heq
      injection heq with h1 h2
      subst h2
      injection h1 with h1
      rw [← h1, if_pos rfl]
      have := IStream.get_some_length hg
      omega
  | case4 s hf c s1 hg hc ih =>
    unfold skip_line
    rw [if_neg hf]
    split
    · rename_i s2 heq
      rw [hg] at heq
      simp at heq
    · rename_i c2 s2 heq
      rw [hg] at heq
      injection heq with h1 h2
      subst h2
      injection h1 with h1
      subst h1
      rw [if_neg hc]
      have := IStream.get_some_length hg
      omega

/-- peek never changes the pending data, whatever it returns. -/
theorem IStream.peek_data {s s1 : IStream} {r : Option Char}
    (h : IStream.peek s = (r, s1)) : s1.data = s.data := by
  unfold IStream.peek at h
  split at h
  · injection h with h1 h2
    subst h2
    rfl
  · split at h <;>
    · injection h with h1 h2
      subst h2
      rfl

/-- skip_spaces(stream, at_end): peek; a carriage return or the end of data
yields at_end, a non-space character yields true, a space character is
discarded and the loop repeats. -/
def skip_spaces (s : IStream) (at_end : Bool) : Bool × IStream :=
  match hpk : IStream.peek s with
  | (none, s1) => (at_end, s1)
  | (some c, s1) =>
    if c = '\r' then (at_end, s1)
    else if isSpaceChar c = false then (true, s1)
    else skip_spaces (IStream.ignore1 s1) at_end
termination_by s.data.length
decreasing_by
  obtain ⟨rfl, ⟨rest, hd⟩, he, hf⟩ := IStream.peek_some hpk
  unfold IStream.ignore1
  simp [he, hf, hd]

theorem skip_spaces_length (s : IStream) (at_end : Bool) :
    (skip_spaces s at_end).2.data.length ≤ s.data.length := by
  induction s, at_end using skip_spaces.induct with
  | case1 s at_end s1 hpk =>
    unfold skip_spaces
    split
    · rename_i s2 heq
      rw [hpk] at heq
      injection heq with h1 h2
      subst h2
      simp [IStream.peek_data hpk]
    · rename_i c s2 heq
      rw [hpk] at heq
      simp at heq
  | case2 s at_end s1 hpk =>
    unfold skip_spaces
    split
    · rename_i s2 heq
      rw [hpk] at heq
      simp at heq
    · rename_i c s2 heq
      rw [hpk] at heq
      injection heq with h1 h2
      subst h2
      injection h1 with h1
      rw [← h1, if_pos rfl]
      simp [IStream.peek_data hpk]
  | case3 s at_end c s1 hpk hc hsp =>
    unfold skip_spaces
    split
    · rename_i s2 heq
      rw [hpk] at heq
      simp at heq
    · rename_i c2 s2 heq
      rw [hpk] at heq
      injection heq with h1 h2
      subst h2
      injection h1 with h1
      subst h1
      rw [if_neg hc, if_pos hsp]
      simp [IStream.peek_data hpk]
  | case4 s at_end c s1 hpk hc hsp ih =>
    unfold skip_spaces
    split
    · rename_i s2 heq
      rw [hpk] at heq
      simp at heq
    · rename_i c2 s2 heq
      rw [hpk] at heq
      injection heq with h1 h2
      subst h2
      injection h1 with h1
      subst h1
      rw [if_neg hc, if_neg hsp]
      have h3 := IStream.peek_data hpk
      have h4 := IStream.ignore1_length s1
      have h5 : s1.data.length = s.data.length := by rw [h3]
      omega

/-- A space character at the head of a good stream makes skip_spaces consume
at least that character. -/
theorem skip_spaces_strict {s : IStream} {c : Char} {rest : List Char}
    (hd : s.data = c :: rest) (hsp : isSpaceChar c = true) (hc : c ≠ '\r')
    (he : s.eofbit = false) (hf : s.failbit = false) (at_end : Bool) :
    (skip_spaces s at_end).2.data.length < s.data.length := by
  have hpk : IStream.peek s = (some c, s) := by
    unfold IStream.peek
    simp [he, hf, hd]
  unfold skip_spaces
  split
  · rename_i s2 heq
    rw [hpk] at heq
    simp at heq
  · rename_i c2 s2 heq
    rw [hpk] at heq
    injection heq with h1 h2
    subst h2
    injection h1 with h1
    subst h1
    rw [if_neg hc, if_neg (by simp [hsp])]
    have hig : (IStream.ignore1 s).data = rest := by
      unfold IStream.ignore1
      simp [he, hf, hd]
    calc (skip_spaces (IStream.ignore1 s) at_end).2.data.length
        ≤ (IStream.ignore1 s).data.length := skip_spaces_length _ _
      _ < s.data.length := by simp [hig, hd]

/-- Loop of read_delimited: get characters into the output; eof or a carriage
return is put back and yields at_end; the delimiter ends the name and
whitespace after it is skipped. -/
def read_delimited_loop (s : IStream) (output : List Char) (delim : Char)
    (at_end : Bool) : Bool × List Char × IStream :=
  match hg : IStream.get s with
  | (none, s1) => (at_end, output, IStream.ungetNone s1)
  | (some c, s1) =>
    if c = '\r' then (at_end, output, IStream.ungetChar s1 c)
    else if c = delim then
      let r := skip_spaces s1 at_end
      (r.1, output, r.2)
    else read_delimited_loop s1 (output ++ [c]) delim at_end
termination_by s.data.length
decreasing_by
  have := IStream.get_some_length hg
  omega

/-- read_delimited(stream, output, delim, at_end): the output is cleared and
the loop runs. -/
def read_delimited (s : IStream) (delim : Char) (at_end : Bool) :
    Bool × List Char × IStream :=
  read_delimited_loop s [] delim at_end

theorem IStream.ungetChar_length (s : IStream) (c : Char) :
    (IStream.ungetChar s c).data.length ≤ s.data.length + 1 := by
  unfold IStream.ungetChar
  split <;> simp

theorem read_delimited_loop_spec (s : IStream) (output : List Char)
    (delim : Char) (at_end : Bool) :
    (read_delimited_loop s output delim at_end).2.2.data.length ≤ s.data.length ∧
    (at_end = false → (read_delimited_loop s output delim at_end).1 = true →
      (read_delimited_loop s output delim at_end).2.2.data.length < s.data.length) := by
  induction s, output, delim, at_end using read_delimited_loop.induct with
  | case1 s output delim at_end s1 hg =>
    unfold read_delimited_loop
    split
    · rename_i s2 heq
      rw [hg] at heq
      injection heq with h1 h2
      subst h2
      constructor
      · unfold IStream.ungetNone
        simp [(IStream.get_none_data hg).1]
      · rintro rfl h
        simp at h
    · rename_i c s2 heq
      rw [hg] at heq
      simp at heq
  | case2 s output delim at_end s1 hg =>
    unfold read_delimited_loop
    split
    · rename_i s2 heq
      rw [hg] at heq
      simp at heq
    · rename_i c s2 heq
      rw [hg] at heq
      injection heq with h1 h2
      subst h2
      injection h1 with h1
      rw [← h1, if_pos rfl]
      constructor
      · have h2 := IStream.get_some_length hg
        have h3 := IStream.ungetChar_length s1 '\x0d'
        dsimp only
        omega
      · rintro rfl h
        simp at h
  | case3 s output at_end c s1 hg hc =>
    unfold read_delimited_loop
    split
    · rename_i s2 heq
      rw [hg] at heq
      simp at heq
    · rename_i c2 s2 heq
      rw [hg] at heq
      injection heq with h1 h2
      subst h2
      injection h1 with h1
      subst h1
      rw [if_neg hc, if_pos rfl]
      have h2 := IStream.get_some_length hg
      have h3 := skip_spaces_length s1 at_end
      dsimp only
      exact ⟨by omega, fun _ _ => by omega⟩
  | case4 s output delim at_end c s1 hg hc hd ih =>
    unfold read_delimited_loop
    split
    · rename_i s2 heq
      rw [hg] at heq
      simp at heq
    · rename_i c2 s2 heq
      rw [hg] at heq
      injection heq with h1 h2
      subst h2
      injection h1 with h1
      subst h1
      rw [if_neg hc, if_neg hd]
      have h2 := IStream.get_some_length hg
      refine ⟨by have := ih.1; omega, fun ha hb => ?_⟩
      have := ih.2 ha hb
      omega

theorem read_delimited_length (s : IStream) (delim : Char) (at_end : Bool) :
    (read_delimited s delim at_end).2.2.data.length ≤ s.data.length :=
  (read_delimited_loop_spec s [] delim at_end).1

theorem read_delimited_true_lt (s : IStream) (delim : Char)
    (h : (read_delimited s delim false).1 = true) :
    (read_delimited s delim false).2.2.data.length < s.data.length :=
  (read_delimited_loop_spec s [] delim false).2 rfl h

/-- Loop of read_quoted_header_value: eof, carriage return or newline fail; an
unescaped quote ends the value (and the rest of the line is skipped); an
unescaped backslash escapes the next character; any other character is
appended. -/
def read_quoted_loop (s : IStream) (value : List Char) (last_slash : Bool) :
    Bool × List Char × IStream :=
  match hg : IStream.get s with
  | (none, s1) => (false, value, s1)
  | (some c, s1) =>
    if c = '\r' ∨ c = '\n' then (false, value, s1)
    else if last_slash = false ∧ c = '"' then (true, value, skip_line s1)
    else if last_slash = false ∧ c = '\\' then read_quoted_loop s1 value true
    else read_quoted_loop s1 (value ++ [c]) false
termination_by s.data.length
decreasing_by
  all_goals
    have := IStream.get_some_length hg
    omega

/-- read_quoted_header_value: discard the opening quote, then the loop with the
value cleared. -/
def read_quoted_header_value (s : IStream) : Bool × List Char × IStream :=
  read_quoted_loop (IStream.ignore1 s) [] false

theorem read_quoted_loop_length (s : IStream) (value : List Char)
    (last_slash : Bool) :
    (read_quoted_loop s value last_slash).2.2.data.length ≤ s.data.length := by
  induction s, value, last_slash using read_quoted_loop.induct with
  | case1 s value last_slash s1 hg =>
    unfold read_quoted_loop
    split
    · rename_i s2 heq
      rw [hg] at heq
      injection heq with h1 h2
      subst h2
      simp [(IStream.get_none_data hg).1]
    · rename_i c s2 heq
      rw [hg] at heq
      simp at heq
  | case2 s value last_slash c s1 hg hc =>
    unfold read_quoted_loop
    split
    · rename_i s2 heq
      rw [hg] at heq
      simp at heq
    · rename_i c2 s2 heq
      rw [hg] at heq
      injection heq with h1 h2
      subst h2
      injection h1 with h1
      subst h1
      rw [if_pos hc]
      have := IStream.get_some_length hg
      dsimp only
      omega
  | case3 s value last_slash c s1 hg hc hq =>
    unfold read_quoted_loop
    split
    · rename_i s2 heq
      rw [hg] at heq
      simp at heq
    · rename_i c2 s2 heq
      rw [hg] at heq
      injection heq with h1 h2
      subst h2
      injection h1 with h1
      subst h1
      rw [if_neg hc, if_pos hq]
      have h2 := IStream.get_some_length hg
      have h3 := skip_line_length s1
      simpa using by omega
  | case4 s value last_slash c s1 hg hc hq hb ih =>
    unfold read_quoted_loop
    split
    · rename_i s2 heq
      rw [hg] at heq
      simp at heq
    · rename_i c2 s2 heq
      rw [hg] at heq
      injection heq with h1 h2
      subst h2
      injection h1 with h1
      subst h1
      rw [if_neg hc, if_neg hq, if_pos hb]
      have := IStream.get_some_length hg
      omega
  | case5 s value last_slash c s1 hg hc hq hb ih =>
    unfold read_quoted_loop
    split
    · rename_i s2 heq
      rw [hg] at heq
      simp at heq
    · rename_i c2 s2 heq
      rw [hg] at heq
      injection heq with h1 h2
      subst h2
      injection h1 with h1
      subst h1
      rw [if_neg hc, if_neg hq, if_neg hb]
      have := IStream.get_some_length hg
      omega

theorem read_quoted_header_value_length (s : IStream) :
    (read_quoted_header_value s).2.2.data.length ≤ s.data.length :=
  le_trans (read_quoted_loop_length _ [] false) (IStream.ignore1_length s)

/-- read_cookies: repeatedly read a name up to '=' and a value up to ';'
(allowing the value to end the line), appending each pair to the cookie map,
until the next character is a carriage return; then skip the line. -/
def read_cookies_loop (s : IStream) (cookies : HeaderList) :
    Bool × HeaderList × IStream :=
  match hname : read_delimited s '=' false with
  | (false, _, s1) => (false, cookies, s1)
  | (true, name, s1) =>
    match hval : read_delimited s1 ';' true with
    | (false, _, s2) => (false, cookies, s2)
    | (true, value, s2) =>
      match hpk : IStream.peek s2 with
      | (some c, s3) =>
        if c = '\x0d' then (true, cookies ++ [(name, value)], skip_line s3)
        else read_cookies_loop s3 (cookies ++ [(name, value)])
      | (none, s3) => read_cookies_loop s3 (cookies ++ [(name, value)])
termination_by s.data.length
decreasing_by
  all_goals
    have h1 := read_delimited_true_lt s '=' (by rw [hname])
    rw [hname] at h1
    have h2 := read_delimited_length s1 ';' true
    rw [hval] at h2
    have h3 := IStream.peek_data hpk
    dsimp only at h1 h2
    rw [h3]
    omega

theorem read_cookies_loop_length (s : IStream) (cookies : HeaderList) :
    (read_cookies_loop s cookies).2.2.data.length ≤ s.data.length := by
  induction s, cookies using read_cookies_loop.induct with
  | case1 s cookies r s1 hname =>
    unfold read_cookies_loop
    split
    · rename_i r2 s2 heq
      rw [hname] at heq
      injection heq with h1 h2
      injection h2 with h2 h3
      subst h3
      have := read_delimited_length s '=' false
      rw [hname] at this
      exact this
    · rename_i name s2 heq
      rw [hname] at heq
      simp at heq
  | case2 s cookies name s1 hname r s2 hval =>
    unfold read_cookies_loop
    split
    · rename_i r2 s3 heq
      rw [hname] at heq
      simp at heq
    · rename_i name2 s3 heq
      rw [hname] at heq
      injection heq with h1 h2
      injection h2 with h2 h3
      subst h2
      subst h3
      split
      · rename_i r2 s4 heq2
        rw [hval] at heq2
        injection heq2 with h1 h2
        injection h2 with h2 h3
        subst h3
        have ha := read_delimited_length s '=' false
        rw [hname] at ha
        have hb := read_delimited_length s1 ';' true
        rw [hval] at hb
        dsimp only at ha hb ⊢
        omega
      · rename_i v2 s4 heq2
        rw [hval] at heq2
        simp at heq2
  | case3 s cookies name s1 hname value s2 hval s3 hpk =>
    unfold read_cookies_loop
    split
    · rename_i r2 s4 heq
      rw [hname] at heq
      simp at heq
    · rename_i name2 s4 heq
      rw [hname] at heq
      injection heq with h1 h2
      injection h2 with h2 h3
      subst h2
      subst h3
      split
      · rename_i r2 s5 heq2
        rw [hval] at heq2
        simp at heq2
      · rename_i v2 s5 heq2
        rw [hval] at heq2
        injection heq2 with h1 h2
        injection h2 with h2 h3
        subst h2
        subst h3
        split
        · rename_i c2 s6 heq3
          rw [hpk] at heq3
          injection heq3 with h1 h2
          subst h2
          injection h1 with h1
          rw [← h1, if_pos rfl]
          have ha := read_delimited_length s '=' false
          rw [hname] at ha
          have hb := read_delimited_length s1 ';' true
          rw [hval] at hb
          have hcD := IStream.peek_data hpk
          have hd := skip_line_length s3
          dsimp only at ha hb ⊢
          rw [hcD] at hd
          omega
        · rename_i s6 heq3
          rw [hpk] at heq3
          simp at heq3
  | case4 s cookies name s1 hname value s2 hval c s3 hpk hc ih =>
    unfold read_cookies_loop
    split
    · rename_i r2 s4 heq
      rw [hname] at heq
      simp at heq
    · rename_i name2 s4 heq
      rw [hname] at heq
      injection heq with h1 h2
      injection h2 with h2 h3
      subst h2
      subst h3
      split
      · rename_i r2 s5 heq2
        rw [hval] at heq2
        simp at heq2
      · rename_i v2 s5 heq2
        rw [hval] at heq2
        injection heq2 with h1 h2
        injection h2 with h2 h3
        subst h2
        subst h3
        split
        · rename_i c2 s6 heq3
          rw [hpk] at heq3
          injection heq3 with h1 h2
          subst h2
          injection h1 with h1
          subst h1
          rw [if_neg hc]
          have ha := read_delimited_length s '=' false
          rw [hname] at ha
          have hb := read_delimited_length s1 ';' true
          rw [hval] at hb
          have hcD := IStream.peek_data hpk
          have hd := ih
          dsimp only at ha hb hd ⊢
          rw [hcD] at hd
          omega
        · rename_i s6 heq3
          rw [hpk] at heq3
          simp at heq3
  | case5 s cookies name s1 hname value s2 hval s3 hpk ih =>
    unfold read_cookies_loop
    split
    · rename_i r2 s4 heq
      rw [hname] at heq
      simp at heq
    · rename_i name2 s4 heq
      rw [hname] at heq
      injection heq with h1 h2
      injection h2 with h2 h3
      subst h2
      subst h3
      split
      · rename_i r2 s5 heq2
        rw [hval] at heq2
        simp at heq2
      · rename_i v2 s5 heq2
        rw [hval] at heq2
        injection heq2 with h1 h2
        injection h2 with h2 h3
        subst h2
        subst h3
        split
        · rename_i c2 s6 heq3
          rw [hpk] at heq3
          simp at heq3
        · rename_i s6 heq3
          rw [hpk] at heq3
          injection heq3 with h1 h2
          subst h2
          have ha := read_delimited_length s '=' false
          rw [hname] at ha
          have hb := read_delimited_length s1 ';' true
          rw [hval] at hb
          have hcD := IStream.peek_data hpk
          have hd := ih
          dsimp only at ha hb hd ⊢
          rw [hcD] at hd
          omega

/-- Folded-header continuation: headers.back().second += ' ' + value (only
called with non-empty headers). -/
def append_to_last (headers : HeaderList) (value : List Char) : HeaderList :=
  match headers.getLast? with
  | none => headers
  | some last => headers.dropLast ++ [(last.1, last.2 ++ ' ' :: value)]

/-- Outcome of handling one header line inside the read_headers loop: either
the loop body hit a return statement (done, with the success flag), or it
reached the end of the body or a continue statement and the while loop runs
again (next). -/
inductive HeaderStep where
  | done : Bool → HeaderList → HeaderList → IStream → HeaderStep
  | next : HeaderList → HeaderList → IStream → HeaderStep
deriving DecidableEq, Repr

/-- The body of the while loop of read_headers, entered after the loop
condition peeked a character other than a carriage return (or hit the end of
data, leaving eofbit set).  It starts with the second peek of
std::isspace(stream.peek()), where the eof value is not a space; parse_folded
and use_cookies reflect the ParseFoldedHeaders flag and the cookie-map pointer
of the C++ signature. -/
def read_headers_line (s : IStream) (headers cookies : HeaderList)
    (parse_folded use_cookies : Bool) : HeaderStep :=
  let pk := IStream.peek s
  let isSp := match pk.1 with
    | some ch => isSpaceChar ch
    | none => false
  let s2 := pk.2
  if isSp then
    if parse_folded = false then .done false headers cookies s2
    else
      let sp := skip_spaces s2 false
      if sp.1 = false ∨ headers = [] then .done false headers cookies sp.2
      else
        let gl := IStream.getline sp.2 '\x0d'
        let s3 := IStream.ignore1 gl.2
        if s3.failbit = true then .done false headers cookies s3
        else .next (append_to_last headers gl.1) cookies s3
  else
    match read_delimited s2 ':' false with
    | (false, _, s3) => .done false headers cookies s3
    | (true, name, s3) =>
      if use_cookies = true ∧ name = "Cookie".data then
        match read_cookies_loop s3 cookies with
        | (false, ck, s4) => .done false headers ck s4
        | (true, ck, s4) => .next headers ck s4
      else
        let pk2 := IStream.peek s3
        if pk2.1 = some '"' then
          let rq := read_quoted_header_value pk2.2
          if rq.2.2.failbit = true then .done false headers cookies rq.2.2
          else .next (headers ++ [(name, rq.2.1)]) cookies rq.2.2
        else
          let gl := IStream.getline pk2.2 '\x0d'
          let s4 := IStream.ignore1 gl.2
          if s4.failbit = true then .done false headers cookies s4
          else .next (headers ++ [(name, gl.1)]) cookies s4

/-- Whenever the loop body asks for another iteration it has consumed at least
one character from the stream. -/
theorem read_headers_line_next_lt (s : IStream) (headers cookies : HeaderList)
    (parse_folded use_cookies : Bool) (h2 c2 : HeaderList) (s2 : IStream)
    (hnext : read_headers_line s headers cookies parse_folded use_cookies =
      HeaderStep.next h2 c2 s2) :
    s2.data.length < s.data.length := by
  unfold read_headers_line at hnext
  rcases hpk : IStream.peek s with ⟨pk1, spk⟩
  rw [hpk] at hnext
  dsimp only at hnext
  split at hnext
  · rename_i hisSp
    split at hnext
    · simp at hnext
    · split at hnext
      · simp at hnext
      · rename_i hpf hsp
        split at hnext
        · simp at hnext
        · rename_i hfb
          injection hnext with ha hb hc
          subst hc
          rcases pk1 with - | ch
          · simp at hisSp
          · obtain ⟨heqs, ⟨rest, hd⟩, he, hf⟩ := IStream.peek_some hpk
            subst heqs
            simp only at hisSp
            by_cases hcr : ch = '\x0d'
            · exfalso
              subst hcr
              have hss : skip_spaces spk false = (false, spk) := by
                unfold skip_spaces
                rw [hpk]
                rfl
              rw [hss] at hsp
              simp at hsp
            · have hstrict := skip_spaces_strict hd hisSp hcr he hf false
              have hgl := IStream.getline_length (skip_spaces spk false).2 '\x0d'
              have hig := IStream.ignore1_length (IStream.getline
                (skip_spaces spk false).2 '\x0d').2
              omega
  · rename_i hisSp
    split at hnext
    · simp at hnext
    · rename_i name s3 hrd
      have hs3 : s3.data.length < s.data.length := by
        have h1 := read_delimited_true_lt spk ':' (by rw [hrd])
        rw [hrd] at h1
        have h2 := IStream.peek_data hpk
        dsimp only at h1
        rw [h2] at h1
        exact h1
      split at hnext
      · split at hnext
        · simp at hnext
        · rename_i ck s4 hck
          injection hnext with ha hb hc
          subst hc
          have h1 := read_cookies_loop_length s3 cookies
          rw [hck] at h1
          dsimp only at h1
          omega
      · split at hnext
        · split at hnext
          · simp at hnext
          · injection hnext with ha hb hc
            subst hc
            rcases hpk2 : IStream.peek s3 with ⟨r2, s5⟩
            dsimp only
            have h1 := read_quoted_header_value_length s5
            have h2 : s5.data.length = s3.data.length := by
              rw [IStream.peek_data hpk2]
            omega
        · split at hnext
          · simp at hnext
          · injection hnext with ha hb hc
            subst hc
            rcases hpk2 : IStream.peek s3 with ⟨r2, s5⟩
            dsimp only
            have h1 := IStream.getline_length s5 '\x0d'
            have h2 := IStream.ignore1_length (IStream.getline s5 '\x0d').2
            have h3 : s5.data.length = s3.data.length := by
              rw [IStream.peek_data hpk2]
            omega

/-- The while loop of read_headers: while the stream is good and the next
character is not a carriage return, handle one header line; on exit skip the
blank line and report success. -/
def read_headers_loop (s : IStream) (headers cookies : HeaderList)
    (parse_folded use_cookies : Bool) :
    Bool × HeaderList × HeaderList × IStream :=
  if s.failbit = true then (true, headers, cookies, skip_line s)
  else
    match hpk : IStream.peek s with
    | (some c, s1) =>
      if c = '\x0d' then (true, headers, cookies, skip_line s1)
      else
        match hline : read_headers_line s1 headers cookies parse_folded use_cookies with
        | .done ok h2 c2 s2 => (ok, h2, c2, s2)
        | .next h2 c2 s2 => read_headers_loop s2 h2 c2 parse_folded use_cookies
    | (none, s1) =>
      match hline : read_headers_line s1 headers cookies parse_folded use_cookies with
      | .done ok h2 c2 s2 => (ok, h2, c2, s2)
      | .next h2 c2 s2 => read_headers_loop s2 h2 c2 parse_folded use_cookies
termination_by s.data.length
decreasing_by
  all_goals
    have h1 := read_headers_line_next_lt _ _ _ _ _ _ _ _ hline
    have h2 : s1.data.length = s.data.length := by
      rw [IStream.peek_data hpk]
    omega

/-- read_headers(stream, headers, parse_folded, cookies): the cookie map is
cleared first when the cookie pointer is non-null (use_cookies). -/
def read_headers (s : IStream) (headers cookies : HeaderList)
    (parse_folded use_cookies : Bool) :
    Bool × HeaderList × HeaderList × IStream :=
  read_headers_loop s headers (if use_cookies then [] else cookies)
    parse_folded use_cookies

/-! ### Protocol, Request and read_request -/

/-- Modelled from the spec: the Protocol class sources are absent from src/.
"Protocol: a pair (name, major, minor); the recognized identity is HTTP/1.0
and HTTP/1.1". -/
structure Protocol where
  name : List Char
  major : Nat
  minor : Nat
deriving DecidableEq, Repr

/-- Modelled from the spec: validity of a protocol is its recognized identity,
HTTP/1.0 or HTTP/1.1. -/
def Protocol.valid (p : Protocol) : Bool :=
  p.name = "HTTP".data && (p.major = 1 && (p.minor = 0 || p.minor = 1))

/-- Decimal parse of a non-empty digit string (anything else fails). -/
def parse_nat_digits (l : List Char) : Option Nat :=
  if l ≠ [] ∧ l.all isDigitAscii then
    some (l.foldl (fun n c => n * 10 + (c.toNat - 48)) 0)
  else none

/-- Modelled from the spec: the Protocol extraction operator reads one token
of the shape name, slash, major, dot, minor; a malformed token leaves the
default-constructed (invalid) protocol. -/
def parseProtocol (tok : List Char) : Protocol :=
  let name := tok.takeWhile (fun c => c ≠ '/')
  match tok.dropWhile (fun c => c ≠ '/') with
  | '/' :: ver =>
    let a := ver.takeWhile (fun c => c ≠ '.')
    match ver.dropWhile (fun c => c ≠ '.') with
    | '.' :: b =>
      match parse_nat_digits a, parse_nat_digits b with
      | some x, some y => ⟨name, x, y⟩
      | _, _ => ⟨[], 0, 0⟩
    | _ => ⟨[], 0, 0⟩
  | _ => ⟨[], 0, 0⟩

/-- The fields of a Request that read_request populates.  The url holds the
raw request-target token (the Uri parser lives in a translation unit outside
src/ and none of the claims depends on its decomposition); the body is the
attached input view with its declared byte count, none while no body has been
attached. -/
structure Request where
  method : List Char
  url : List Char
  protocol : Protocol
  headers : HeaderList
  cookies : HeaderList
  body : Option Nat
deriving DecidableEq, Repr

/-- A default-constructed Request (request = Request() at the top of
read_request): everything empty, protocol default-constructed. -/
def Request.default : Request :=
  ⟨[], [], ⟨[], 0, 0⟩, [], [], none⟩

/-- OrderedMultimap::contains under the case-insensitive comparator. -/
def headers_contains (h : HeaderList) (key : List Char) : Bool :=
  h.any (fun e => icaseEq e.1 key)

/-- OrderedMultimap::get under the case-insensitive comparator: the first
value stored for the key, default the empty string. -/
def headers_get (h : HeaderList) (key : List Char) : List Char :=
  match h.find? (fun e => icaseEq e.1 key) with
  | some e => e.2
  | none => []

/-- read_request_line: extract the method, the request-target and the
protocol as whitespace-separated tokens, skip the rest of the line, and
succeed when the protocol is valid and the stream has not failed. -/
def read_request_line (s : IStream) (req : Request) : Bool × Request × IStream :=
  let m := IStream.extractToken s
  let u := IStream.extractToken m.2
  let p := IStream.extractToken u.2
  let req2 := { req with
    method := m.1, url := u.1, protocol := parseProtocol p.1 }
  let s4 := skip_line p.2
  (req2.protocol.valid && s4.toBool, req2, s4)

/-- Modelled from the spec: ContentStream::get_data (the content-stream
translation unit is absent from src/).  The spec: "If Content-Length is
present → read exactly that many bytes (sets expected_input)".  The declared
length is the Content-Length value parsed as a decimal byte count; a
malformed value fails, which read_request maps to 400 Bad Request.  The body
stays attached to the buffered stream for lazy reads, so no stream bytes are
consumed here. -/
def get_data (h : HeaderList) : Option Nat :=
  parse_nat_digits (headers_get h "Content-Length".data)

/-- The status codes read_request can suggest. -/
def StatusCode.Continue : Nat := 100
def StatusCode.OK : Nat := 200
def StatusCode.BadRequest : Nat := 400
def StatusCode.LengthRequired : Nat := 411
def StatusCode.ExpectationFailed : Nat := 417

/-- The HTTP/1.1 protocol value compared against in read_request. -/
def protocolHttp11 : Protocol := ⟨"HTTP".data, 1, 1⟩

/-- read_request(stream, request, flags): assign a fresh Request, parse the
request line (400 on failure), parse the headers with the ParseFoldedHeaders
flag and, unless PreserveCookieHeaders is set, the request's cookie map (400
on failure); then frame the body: with Content-Length attach the body (400 on
failure) and suggest 100 Continue for an HTTP/1.1 Expect: 100-continue; with
no Content-Length and eofbit unset suggest 411; an HTTP/1.1 request with an
Expect header left over suggests 417; otherwise OK. -/
def read_request (s : IStream) (request : Request)
    (parse_folded preserve_cookies : Bool) : Nat × Request × IStream :=
  let req := Request.default
  match read_request_line s req with
  | (false, req1, s1) => (StatusCode.BadRequest, req1, s1)
  | (true, req1, s1) =>
    match read_headers s1 req1.headers req1.cookies parse_folded
        (!preserve_cookies) with
    | (false, hs, cks, s2) =>
      (StatusCode.BadRequest, { req1 with headers := hs, cookies := cks }, s2)
    | (true, hs, cks, s2) =>
      let req2 := { req1 with headers := hs, cookies := cks }
      if headers_contains hs "Content-Length".data then
        match get_data hs with
        | none => (StatusCode.BadRequest, req2, s2)
        | some n =>
          let req3 := { req2 with body := some n }
          if req3.protocol = protocolHttp11 ∧
              headers_get hs "Expect".data = "100-continue".data then
            (StatusCode.Continue, req3, s2)
          else if req3.protocol = protocolHttp11 ∧
              headers_contains hs "Expect".data then
            (StatusCode.ExpectationFailed, req3, s2)
          else
            (StatusCode.OK, req3, s2)
      else if s2.eofbit = false then
        (StatusCode.LengthRequired, req2, s2)
      else if req2.protocol = protocolHttp11 ∧
          headers_contains hs "Expect".data then
        (StatusCode.ExpectationFailed, req2, s2)
      else
        (StatusCode.OK, req2, s2)

/-! ### Fuel-indexed executable twins

The loop functions of the parser are defined by well-founded recursion, which
the kernel does not reduce on concrete inputs.  Each of them has a
fuel-indexed twin below, proved to agree with it whenever the fuel exceeds
the length of the pending data; the concrete evaluations in the claim
theorems go through these twins. -/

def skip_lineE : Nat → IStream → IStream
  | 0, s => s
  | fuel + 1, s =>
    if s.failbit = true then s
    else match IStream.get s with
      | (none, s1) => s1
      | (some c, s1) => if c = '\n' then s1 else skip_lineE fuel s1

theorem skip_lineE_eq (fuel : Nat) (s : IStream) (h : s.data.length < fuel) :
    skip_lineE fuel s = skip_line s := by
  induction s using skip_line.induct generalizing fuel with
  | case1 s hf =>
    match fuel with
    | 0 => omega
    | m + 1 =>
      unfold skip_lineE skip_line
      rw [if_pos hf, if_pos hf]
  | case2 s hf s1 hg =>
    match fuel with
    | 0 => omega
    | m + 1 =>
      unfold skip_lineE skip_line
      rw [if_neg hf, if_neg hf, hg]
  | case3 s hf s1 hg =>
    match fuel with
    | 0 => omega
    | m + 1 =>
      unfold skip_lineE skip_line
      rw [if_neg hf, if_neg hf, hg]
      rfl
  | case4 s hf c s1 hg hc ih =>
    match fuel with
    | 0 => omega
    | m + 1 =>
      unfold skip_lineE skip_line
      rw [if_neg hf, if_neg hf, hg]
      dsimp only
      rw [if_neg hc, if_neg hc]
      have hlen := IStream.get_some_length hg
      exact ih m (by omega)

def skip_spacesE : Nat → IStream → Bool → Bool × IStream
  | 0, s, _ => (false, s)
  | fuel + 1, s, at_end =>
    match IStream.peek s with
    | (none, s1) => (at_end, s1)
    | (some c, s1) =>
      if c = '\x0d' then (at_end, s1)
      else if isSpaceChar c = false then (true, s1)
      else skip_spacesE fuel (IStream.ignore1 s1) at_end

theorem skip_spacesE_eq (fuel : Nat) (s : IStream) (at_end : Bool)
    (h : s.data.length < fuel) :
    skip_spacesE fuel s at_end = skip_spaces s at_end := by
  induction s, at_end using skip_spaces.induct generalizing fuel with
  | case1 s at_end s1 hpk =>
    match fuel with
    | 0 => omega
    | m + 1 =>
      unfold skip_spacesE skip_spaces
      rw [hpk]
  | case2 s at_end s1 hpk =>
    match fuel with
    | 0 => omega
    | m + 1 =>
      unfold skip_spacesE skip_spaces
      rw [hpk]
      rfl
  | case3 s at_end c s1 hpk hc hsp =>
    match fuel with
    | 0 => omega
    | m + 1 =>
      unfold skip_spacesE skip_spaces
      rw [hpk]
      dsimp only
      rw [if_neg hc, if_neg hc, if_pos hsp, if_pos hsp]
  | case4 s at_end c s1 hpk hc hsp ih =>
    match fuel with
    | 0 => omega
    | m + 1 =>
      unfold skip_spacesE skip_spaces
      rw [hpk]
      dsimp only
      rw [if_neg hc, if_neg hc, if_neg hsp, if_neg hsp]
      obtain ⟨heqs, ⟨rest, hd⟩, he, hf⟩ := IStream.peek_some hpk
      subst heqs
      refine ih m ?_
      have hig : (IStream.ignore1 s1).data = rest := by
        unfold IStream.ignore1
        simp [he, hf, hd]
      rw [hig]
      rw [hd] at h
      simp at h
      omega

def read_delimited_loopE : Nat → IStream → List Char → Char → Bool →
    Bool × List Char × IStream
  | 0, s, output, _, at_end => (at_end, output, s)
  | fuel + 1, s, output, delim, at_end =>
    match IStream.get s with
    | (none, s1) => (at_end, output, IStream.ungetNone s1)
    | (some c, s1) =>
      if c = '\x0d' then (at_end, output, IStream.ungetChar s1 c)
      else if c = delim then
        let r := skip_spacesE fuel s1 at_end
        (r.1, output, r.2)
      else read_delimited_loopE fuel s1 (output ++ [c]) delim at_end

theorem read_delimited_loopE_eq (fuel : Nat) (s : IStream) (output : List Char)
    (delim : Char) (at_end : Bool) (h : s.data.length < fuel) :
    read_delimited_loopE fuel s output delim at_end =
      read_delimited_loop s output delim at_end := by
  induction s, output, delim, at_end using read_delimited_loop.induct
      generalizing fuel with
  | case1 s output delim at_end s1 hg =>
    match fuel with
    | 0 => omega
    | m + 1 =>
      unfold read_delimited_loopE read_delimited_loop
      rw [hg]
  | case2 s output delim at_end s1 hg =>
    match fuel with
    | 0 => omega
    | m + 1 =>
      unfold read_delimited_loopE read_delimited_loop
      rw [hg]
      rfl
  | case3 s output at_end c s1 hg hc =>
    match fuel with
    | 0 => omega
    | m + 1 =>
      unfold read_delimited_loopE read_delimited_loop
      rw [hg]
      dsimp only
      rw [if_neg hc, if_neg hc, if_pos rfl, if_pos rfl]
      have hlen := IStream.get_some_length hg
      rw [skip_spacesE_eq m s1 at_end (by omega)]
  | case4 s output delim at_end c s1 hg hc hd ih =>
    match fuel with
    | 0 => omega
    | m + 1 =>
      unfold read_delimited_loopE read_delimited_loop
      rw [hg]
      dsimp only
      rw [if_neg hc, if_neg hc, if_neg hd, if_neg hd]
      have hlen := IStream.get_some_length hg
      exact ih m (by omega)

def read_delimitedE (fuel : Nat) (s : IStream) (delim : Char) (at_end : Bool) :
    Bool × List Char × IStream :=
  read_delimited_loopE fuel s [] delim at_end

theorem read_delimitedE_eq (fuel : Nat) (s : IStream) (delim : Char)
    (at_end : Bool) (h : s.data.length < fuel) :
    read_delimitedE fuel s delim at_end = read_delimited s delim at_end :=
  read_delimited_loopE_eq fuel s [] delim at_end h

def read_quoted_loopE : Nat → IStream → List Char → Bool →
    Bool × List Char × IStream
  | 0, s, value, _ => (false, value, s)
  | fuel + 1, s, value, last_slash =>
    match IStream.get s with
    | (none, s1) => (false, value, s1)
    | (some c, s1) =>
      if c = '\x0d' ∨ c = '\n' then (false, value, s1)
      else if last_slash = false ∧ c = '"' then (true, value, skip_lineE fuel s1)
      else if last_slash = false ∧ c = '\\' then read_quoted_loopE fuel s1 value true
      else read_quoted_loopE fuel s1 (value ++ [c]) false

theorem read_quoted_loopE_eq (fuel : Nat) (s : IStream) (value : List Char)
    (last_slash : Bool) (h : s.data.length < fuel) :
    read_quoted_loopE fuel s value last_slash =
      read_quoted_loop s value last_slash := by
  induction s, value, last_slash using read_quoted_loop.induct generalizing fuel with
  | case1 s value last_slash s1 hg =>
    match fuel with
    | 0 => omega
    | m + 1 =>
      unfold read_quoted_loopE read_quoted_loop
      rw [hg]
  | case2 s value last_slash c s1 hg hc =>
    match fuel with
    | 0 => omega
    | m + 1 =>
      unfold read_quoted_loopE read_quoted_loop
      rw [hg]
      dsimp only
      rw [if_pos hc, if_pos hc]
  | case3 s value last_slash c s1 hg hc hq =>
    match fuel with
    | 0 => omega
    | m + 1 =>
      unfold read_quoted_loopE read_quoted_loop
      rw [hg]
      dsimp only
      rw [if_neg hc, if_neg hc, if_pos hq, if_pos hq]
      have hlen := IStream.get_some_length hg
      rw [skip_lineE_eq m s1 (by omega)]
  | case4 s value last_slash c s1 hg hc hq hb ih =>
    match fuel with
    | 0 => omega
    | m + 1 =>
      unfold read_quoted_loopE read_quoted_loop
      rw [hg]
      dsimp only
      rw [if_neg hc, if_neg hc, if_neg hq, if_neg hq, if_pos hb, if_pos hb]
      have hlen := IStream.get_some_length hg
      exact ih m (by omega)
  | case5 s value last_slash c s1 hg hc hq hb ih =>
    match fuel with
    | 0 => omega
    | m + 1 =>
      unfold read_quoted_loopE read_quoted_loop
      rw [hg]
      dsimp only
      rw [if_neg hc, if_neg hc, if_neg hq, if_neg hq, if_neg hb, if_neg hb]
      have hlen := IStream.get_some_length hg
      exact ih m (by omega)

def read_quoted_header_valueE (fuel : Nat) (s : IStream) :
    Bool × List Char × IStream :=
  read_quoted_loopE fuel (IStream.ignore1 s) [] false

theorem read_quoted_header_valueE_eq (fuel : Nat) (s : IStream)
    (h : s.data.length < fuel) :
    read_quoted_header_valueE fuel s = read_quoted_header_value s := by
  unfold read_quoted_header_valueE read_quoted_header_value
  have := IStream.ignore1_length s
  rw [read_quoted_loopE_eq fuel _ [] false (by omega)]

def read_cookies_loopE : Nat → IStream → HeaderList → Bool × HeaderList × IStream
  | 0, s, cookies => (false, cookies, s)
  | fuel + 1, s, cookies =>
    match read_delimitedE (fuel + 1) s '=' false with
    | (false, _, s1) => (false, cookies, s1)
    | (true, name, s1) =>
      match read_delimitedE (fuel + 1) s1 ';' true with
      | (false, _, s2) => (false, cookies, s2)
      | (true, value, s2) =>
        match IStream.peek s2 with
        | (some c, s3) =>
          if c = '\x0d' then (true, cookies ++ [(name, value)], skip_lineE (fuel + 1) s3)
          else read_cookies_loopE fuel s3 (cookies ++ [(name, value)])
        | (none, s3) => read_cookies_loopE fuel s3 (cookies ++ [(name, value)])

theorem read_cookies_loopE_eq (fuel : Nat) (s : IStream) (cookies : HeaderList)
    (h : s.data.length < fuel) :
    read_cookies_loopE fuel s cookies = read_cookies_loop s cookies := by
  induction s, cookies using read_cookies_loop.induct generalizing fuel with
  | case1 s cookies r s1 hname =>
    match fuel with
    | 0 => omega
    | m + 1 =>
      unfold read_cookies_loopE read_cookies_loop
      rw [read_delimitedE_eq (m + 1) s '=' false (by omega), hname]
  | case2 s cookies name s1 hname r s2 hval =>
    match fuel with
    | 0 => omega
    | m + 1 =>
      have hs1 : s1.data.length < m + 1 := by
        have := read_delimited_true_lt s '=' (by rw [hname])
        rw [hname] at this
        dsimp only at this
        omega
      unfold read_cookies_loopE read_cookies_loop
      rw [read_delimitedE_eq (m + 1) s '=' false (by omega), hname]
      dsimp only
      rw [read_delimitedE_eq (m + 1) s1 ';' true hs1, hval]
  | case3 s cookies name s1 hname value s2 hval s3 hpk =>
    match fuel with
    | 0 => omega
    | m + 1 =>
      have hs1 : s1.data.length < m + 1 := by
        have := read_delimited_true_lt s '=' (by rw [hname])
        rw [hname] at this
        dsimp only at this
        omega
      have hs3 : s3.data.length < m + 1 := by
        have h2 := read_delimited_length s1 ';' true
        rw [hval] at h2
        dsimp only at h2
        have h3 : s3.data.length = s2.data.length := by
          rw [IStream.peek_data hpk]
        omega
      unfold read_cookies_loopE read_cookies_loop
      rw [read_delimitedE_eq (m + 1) s '=' false (by omega), hname]
      dsimp only
      rw [read_delimitedE_eq (m + 1) s1 ';' true hs1, hval]
      dsimp only
      rw [hpk]
      dsimp only
      rw [if_pos rfl, if_pos rfl, skip_lineE_eq (m + 1) s3 hs3]
  | case4 s cookies name s1 hname value s2 hval c s3 hpk hc ih =>
    match fuel with
    | 0 => omega
    | m + 1 =>
      have hs1 : s1.data.length < m + 1 := by
        have := read_delimited_true_lt s '=' (by rw [hname])
        rw [hname] at this
        dsimp only at this
        omega
      have hs3 : s3.data.length < m := by
        have h1 := read_delimited_true_lt s '=' (by rw [hname])
        rw [hname] at h1
        have h2 := read_delimited_length s1 ';' true
        rw [hval] at h2
        dsimp only at h1 h2
        have h3 : s3.data.length = s2.data.length := by
          rw [IStream.peek_data hpk]
        omega
      unfold read_cookies_loopE read_cookies_loop
      rw [read_delimitedE_eq (m + 1) s '=' false (by omega), hname]
      dsimp only
      rw [read_delimitedE_eq (m + 1) s1 ';' true hs1, hval]
      dsimp only
      rw [hpk]
      dsimp only
      rw [if_neg hc, if_neg hc]
      exact ih m hs3
  | case5 s cookies name s1 hname value s2 hval s3 hpk ih =>
    match fuel with
    | 0 => omega
    | m + 1 =>
      have hs1 : s1.data.length < m + 1 := by
        have := read_delimited_true_lt s '=' (by rw [hname])
        rw [hname] at this
        dsimp only at this
        omega
      have hs3 : s3.data.length < m := by
        have h1 := read_delimited_true_lt s '=' (by rw [hname])
        rw [hname] at h1
        have h2 := read_delimited_length s1 ';' true
        rw [hval] at h2
        dsimp only at h1 h2
        have h3 : s3.data.length = s2.data.length := by
          rw [IStream.peek_data hpk]
        omega
      unfold read_cookies_loopE read_cookies_loop
      rw [read_delimitedE_eq (m + 1) s '=' false (by omega), hname]
      dsimp only
      rw [read_delimitedE_eq (m + 1) s1 ';' true hs1, hval]
      dsimp only
      rw [hpk]
      exact ih m hs3

def read_headers_lineE (fuel : Nat) (s : IStream) (headers cookies : HeaderList)
    (parse_folded use_cookies : Bool) : HeaderStep :=
  let pk := IStream.peek s
  let isSp := match pk.1 with
    | some ch => isSpaceChar ch
    | none => false
  let s2 := pk.2
  if isSp then
    if parse_folded = false then .done false headers cookies s2
    else
      let sp := skip_spacesE fuel s2 false
      if sp.1 = false ∨ headers = [] then .done false headers cookies sp.2
      else
        let gl := IStream.getline sp.2 '\x0d'
        let s3 := IStream.ignore1 gl.2
        if s3.failbit = true then .done false headers cookies s3
        else .next (append_to_last headers gl.1) cookies s3
  else
    match read_delimitedE fuel s2 ':' false with
    | (false, _, s3) => .done false headers cookies s3
    | (true, name, s3) =>
      if use_cookies = true ∧ name = "Cookie".data then
        match read_cookies_loopE fuel s3 cookies with
        | (false, ck, s4) => .done false headers ck s4
        | (true, ck, s4) => .next headers ck s4
      else
        let pk2 := IStream.peek s3
        if pk2.1 = some '"' then
          let rq := read_quoted_header_valueE fuel pk2.2
          if rq.2.2.failbit = true then .done false headers cookies rq.2.2
          else .next (headers ++ [(name, rq.2.1)]) cookies rq.2.2
        else
          let gl := IStream.getline pk2.2 '\x0d'
          let s4 := IStream.ignore1 gl.2
          if s4.failbit = true then .done false headers cookies s4
          else .next (headers ++ [(name, gl.1)]) cookies s4

theorem read_headers_lineE_eq (fuel : Nat) (s : IStream)
    (headers cookies : HeaderList) (parse_folded use_cookies : Bool)
    (h : s.data.length < fuel) :
    read_headers_lineE fuel s headers cookies parse_folded use_cookies =
      read_headers_line s headers cookies parse_folded use_cookies := by
  unfold read_headers_lineE read_headers_line
  rcases hpk : IStream.peek s with ⟨pk1, spk⟩
  have hspk : spk.data.length = s.data.length := by
    rw [IStream.peek_data hpk]
  dsimp only
  split
  · split
    · rfl
    · rw [skip_spacesE_eq fuel spk false (by omega)]
  · rw [read_delimitedE_eq fuel spk ':' false (by omega)]
    rcases hrd : read_delimited spk ':' false with ⟨ok, name, s3⟩
    have hs3 : s3.data.length ≤ spk.data.length := by
      have := read_delimited_length spk ':' false
      rw [hrd] at this
      exact this
    match ok with
    | false => rfl
    | true =>
      dsimp only
      split
      · rw [read_cookies_loopE_eq fuel s3 cookies (by omega)]
      · rcases hpk2 : IStream.peek s3 with ⟨r2, s5⟩
        have hs5 : s5.data.length = s3.data.length := by
          rw [IStream.peek_data hpk2]
        dsimp only
        split
        · rw [read_quoted_header_valueE_eq fuel s5 (by omega)]
        · rfl

def read_headers_loopE : Nat → IStream → HeaderList → HeaderList → Bool → Bool →
    Bool × HeaderList × HeaderList × IStream
  | 0, s, headers, cookies, _, _ => (false, headers, cookies, s)
  | fuel + 1, s, headers, cookies, parse_folded, use_cookies =>
    if s.failbit = true then (true, headers, cookies, skip_lineE (fuel + 1) s)
    else
      match IStream.peek s with
      | (some c, s1) =>
        if c = '\x0d' then (true, headers, cookies, skip_lineE (fuel + 1) s1)
        else
          match read_headers_lineE (fuel + 1) s1 headers cookies parse_folded use_cookies with
          | .done ok h2 c2 s2 => (ok, h2, c2, s2)
          | .next h2 c2 s2 => read_headers_loopE fuel s2 h2 c2 parse_folded use_cookies
      | (none, s1) =>
        match read_headers_lineE (fuel + 1) s1 headers cookies parse_folded use_cookies with
        | .done ok h2 c2 s2 => (ok, h2, c2, s2)
        | .next h2 c2 s2 => read_headers_loopE fuel s2 h2 c2 parse_folded use_cookies

theorem read_headers_loopE_eq (fuel : Nat) (s : IStream)
    (headers cookies : HeaderList) (parse_folded use_cookies : Bool)
    (h : s.data.length < fuel) :
    read_headers_loopE fuel s headers cookies parse_folded use_cookies =
      read_headers_loop s headers cookies parse_folded use_cookies := by
  induction s, headers, cookies, parse_folded, use_cookies
      using read_headers_loop.induct generalizing fuel with
  | case1 s headers cookies parse_folded use_cookies hf =>
    match fuel with
    | 0 => omega
    | m + 1 =>
      unfold read_headers_loopE read_headers_loop
      rw [if_pos hf, if_pos hf, skip_lineE_eq (m + 1) s (by omega)]
  | case2 s headers cookies parse_folded use_cookies hf s1 hpk =>
    match fuel with
    | 0 => omega
    | m + 1 =>
      have hs1 : s1.data.length = s.data.length := by
        rw [IStream.peek_data hpk]
      unfold read_headers_loopE read_headers_loop
      rw [if_neg hf, if_neg hf, hpk]
      dsimp only
      rw [if_pos rfl, if_pos rfl, skip_lineE_eq (m + 1) s1 (by omega)]
  | case3 s headers cookies parse_folded use_cookies hf c s1 hpk hc ok h2 c2 s2 hline =>
    match fuel with
    | 0 => omega
    | m + 1 =>
      have hs1 : s1.data.length = s.data.length := by
        rw [IStream.peek_data hpk]
      unfold read_headers_loopE read_headers_loop
      rw [if_neg hf, if_neg hf, hpk]
      dsimp only
      rw [if_neg hc, if_neg hc,
        read_headers_lineE_eq (m + 1) s1 headers cookies parse_folded use_cookies
          (by omega), hline]
  | case4 s headers cookies parse_folded use_cookies hf c s1 hpk hc h2 c2 s2 hline ih =>
    match fuel with
    | 0 => omega
    | m + 1 =>
      have hs1 : s1.data.length = s.data.length := by
        rw [IStream.peek_data hpk]
      have hs2 := read_headers_line_next_lt _ _ _ _ _ _ _ _ hline
      unfold read_headers_loopE read_headers_loop
      rw [if_neg hf, if_neg hf, hpk]
      dsimp only
      rw [if_neg hc, if_neg hc,
        read_headers_lineE_eq (m + 1) s1 headers cookies parse_folded use_cookies
          (by omega), hline]
      exact ih m (by omega)
  | case5 s headers cookies parse_folded use_cookies hf s1 hpk ok h2 c2 s2 hline =>
    match fuel with
    | 0 => omega
    | m + 1 =>
      have hs1 : s1.data.length = s.data.length := by
        rw [IStream.peek_data hpk]
      unfold read_headers_loopE read_headers_loop
      rw [if_neg hf, if_neg hf, hpk]
      dsimp only
      rw [read_headers_lineE_eq (m + 1) s1 headers cookies parse_folded use_cookies
          (by omega), hline]
  | case6 s headers cookies parse_folded use_cookies hf s1 hpk h2 c2 s2 hline ih =>
    match fuel with
    | 0 => omega
    | m + 1 =>
      have hs1 : s1.data.length = s.data.length := by
        rw [IStream.peek_data hpk]
      have hs2 := read_headers_line_next_lt _ _ _ _ _ _ _ _ hline
      unfold read_headers_loopE read_headers_loop
      rw [if_neg hf, if_neg hf, hpk]
      dsimp only
      rw [read_headers_lineE_eq (m + 1) s1 headers cookies parse_folded use_cookies
          (by omega), hline]
      exact ih m (by omega)

/-- Executable twin of read_headers, supplying its own fuel. -/
def read_headersE (s : IStream) (headers cookies : HeaderList)
    (parse_folded use_cookies : Bool) :
    Bool × HeaderList × HeaderList × IStream :=
  read_headers_loopE (s.data.length + 1) s headers
    (if use_cookies then [] else cookies) parse_folded use_cookies

theorem read_headersE_eq (s : IStream) (headers cookies : HeaderList)
    (parse_folded use_cookies : Bool) :
    read_headersE s headers cookies parse_folded use_cookies =
      read_headers s headers cookies parse_folded use_cookies := by
  unfold read_headersE read_headers
  rw [read_headers_loopE_eq _ _ _ _ _ _ (by omega)]

/-- Executable twin of read_request_line, supplying its own fuel for the
final skip_line. -/
def read_request_lineE (s : IStream) (req : Request) : Bool × Request × IStream :=
  let m := IStream.extractToken s
  let u := IStream.extractToken m.2
  let p := IStream.extractToken u.2
  let req2 := { req with
    method := m.1, url := u.1, protocol := parseProtocol p.1 }
  let s4 := skip_lineE (s.data.length + 1) p.2
  (req2.protocol.valid && s4.toBool, req2, s4)

theorem read_request_lineE_eq (s : IStream) (req : Request) :
    read_request_lineE s req = read_request_line s req := by
  unfold read_request_lineE read_request_line
  have h1 := IStream.extractToken_length s
  have h2 := IStream.extractToken_length (IStream.extractToken s).2
  have h3 := IStream.extractToken_length (IStream.extractToken (IStream.extractToken s).2).2
  dsimp only
  rw [skip_lineE_eq (s.data.length + 1) _ (by omega)]

/-- Executable twin of read_request. -/
def read_requestE (s : IStream) (request : Request)
    (parse_folded preserve_cookies : Bool) : Nat × Request × IStream :=
  let req := Request.default
  match read_request_lineE s req with
  | (false, req1, s1) => (StatusCode.BadRequest, req1, s1)
  | (true, req1, s1) =>
    match read_headersE s1 req1.headers req1.cookies parse_folded
        (!preserve_cookies) with
    | (false, hs, cks, s2) =>
      (StatusCode.BadRequest, { req1 with headers := hs, cookies := cks }, s2)
    | (true, hs, cks, s2) =>
      let req2 := { req1 with headers := hs, cookies := cks }
      if headers_contains hs "Content-Length".data then
        match get_data hs with
        | none => (StatusCode.BadRequest, req2, s2)
        | some n =>
          let req3 := { req2 with body := some n }
          if req3.protocol = protocolHttp11 ∧
              headers_get hs "Expect".data = "100-continue".data then
            (StatusCode.Continue, req3, s2)
          else if req3.protocol = protocolHttp11 ∧
              headers_contains hs "Expect".data then
            (StatusCode.ExpectationFailed, req3, s2)
          else
            (StatusCode.OK, req3, s2)
      else if s2.eofbit = false then
        (StatusCode.LengthRequired, req2, s2)
      else if req2.protocol = protocolHttp11 ∧
          headers_contains hs "Expect".data then
        (StatusCode.ExpectationFailed, req2, s2)
      else
        (StatusCode.OK, req2, s2)

theorem read_requestE_eq (s : IStream) (request : Request)
    (parse_folded preserve_cookies : Bool) :
    read_requestE s request parse_folded preserve_cookies =
      read_request s request parse_folded preserve_cookies := by
  unfold read_requestE read_request
  simp only [read_request_lineE_eq, read_headersE_eq]

/-! ## Theorems for C2, C3, C6, C9 -/

theorem append_to_last_keys (headers : HeaderList) (v : List Char)
    (P : List Char → Prop) (hinv : ∀ e ∈ headers, P e.1) :
    ∀ e ∈ append_to_last headers v, P e.1 := by
  intro e he
  unfold append_to_last at he
  split at he
  · exact hinv e he
  · rename_i last hlast
    rcases List.mem_append.mp he with hm | hm
    · exact hinv e (List.mem_of_mem_dropLast hm)
    · have : e = (last.1, last.2 ++ ' ' :: v) := by simpa using hm
      rw [this]
      exact hinv last (List.mem_of_mem_getLast? hlast)

/-- With the cookie pointer active, the loop body never appends a header
entry whose name is exactly "Cookie" (the dispatch to the cookie sub-parser
is a case-sensitive string comparison). -/
theorem read_headers_line_no_exact_cookie (s : IStream)
    (headers cookies : HeaderList) (pf : Bool)
    (hinv : ∀ e ∈ headers, e.1 ≠ "Cookie".data) :
    (∀ ok h2 c2 s2, read_headers_line s headers cookies pf true =
        HeaderStep.done ok h2 c2 s2 → ∀ e ∈ h2, e.1 ≠ "Cookie".data) ∧
    (∀ h2 c2 s2, read_headers_line s headers cookies pf true =
        HeaderStep.next h2 c2 s2 → ∀ e ∈ h2, e.1 ≠ "Cookie".data) := by
  constructor
  · intro ok h2 c2 s2 hres
    unfold read_headers_line at hres
    dsimp only at hres
    split at hres
    · split at hres
      · injection hres with ha hb
        subst hb
        exact hinv
      · split at hres
        · injection hres with ha hb
          subst hb
          exact hinv
        · split at hres
          · injection hres with ha hb
            subst hb
            exact hinv
          · simp at hres
    · split at hres
      · injection hres with ha hb
        subst hb
        exact hinv
      · split at hres
        · split at hres
          · injection hres with ha hb
            subst hb
            exact hinv
          · simp at hres
        · split at hres
          · split at hres
            · injection hres with ha hb
              subst hb
              exact hinv
            · simp at hres
          · split at hres
            · injection hres with ha hb
              subst hb
              exact hinv
            · simp at hres
  · intro h2 c2 s2 hres
    unfold read_headers_line at hres
    dsimp only at hres
    split at hres
    · split at hres
      · simp at hres
      · split at hres
        · simp at hres
        · split at hres
          · simp at hres
          · injection hres with ha hb
            subst ha
            exact append_to_last_keys headers _
              (fun k => k ≠ "Cookie".data) hinv
    · split at hres
      · simp at hres
      · rename_i name s3 hrd
        split at hres
        · split at hres
          · simp at hres
          · injection hres with ha hb
            subst ha
            exact hinv
        · rename_i hnc
          split at hres
          · split at hres
            · simp at hres
            · injection hres with ha hb
              subst ha
              intro e he
              rcases List.mem_append.mp he with hm | hm
              · exact hinv e hm
              · have hname : name ≠ "Cookie".data := by
                  intro hn
                  exact hnc ⟨rfl, hn⟩
                rw [List.mem_singleton.mp hm]
                exact hname
          · split at hres
            · simp at hres
            · injection hres with ha hb
              subst ha
              intro e he
              rcases List.mem_append.mp he with hm | hm
              · exact hinv e hm
              · have hname : name ≠ "Cookie".data := by
                  intro hn
                  exact hnc ⟨rfl, hn⟩
                rw [List.mem_singleton.mp hm]
                exact hname

theorem read_headers_loop_no_exact_cookie (s : IStream)
    (headers cookies : HeaderList) (pf uc : Bool) (huc : uc = true)
    (hinv : ∀ e ∈ headers, e.1 ≠ "Cookie".data) :
    ∀ e ∈ (read_headers_loop s headers cookies pf uc).2.1,
      e.1 ≠ "Cookie".data := by
  revert huc hinv
  induction s, headers, cookies, pf, uc using read_headers_loop.induct with
  | case1 s headers cookies pf uc hf =>
    intro huc hinv
    unfold read_headers_loop
    rw [if_pos hf]
    exact hinv
  | case2 s headers cookies pf uc hf s1 hpk =>
    intro huc hinv
    unfold read_headers_loop
    rw [if_neg hf, hpk]
    dsimp only
    rw [if_pos rfl]
    exact hinv
  | case3 s headers cookies pf uc hf c s1 hpk hc ok h2 c2 s2 hline =>
    intro huc hinv
    subst huc
    unfold read_headers_loop
    rw [if_neg hf, hpk]
    dsimp only
    rw [if_neg hc, hline]
    exact (read_headers_line_no_exact_cookie s1 headers cookies pf hinv).1
      ok h2 c2 s2 hline
  | case4 s headers cookies pf uc hf c s1 hpk hc h2 c2 s2 hline ih =>
    intro huc hinv
    subst huc
    unfold read_headers_loop
    rw [if_neg hf, hpk]
    dsimp only
    rw [if_neg hc, hline]
    exact ih rfl ((read_headers_line_no_exact_cookie s1 headers cookies pf hinv).2
      h2 c2 s2 hline)
  | case5 s headers cookies pf uc hf s1 hpk ok h2 c2 s2 hline =>
    intro huc hinv
    subst huc
    unfold read_headers_loop
    rw [if_neg hf, hpk]
    dsimp only
    rw [hline]
    exact (read_headers_line_no_exact_cookie s1 headers cookies pf hinv).1
      ok h2 c2 s2 hline
  | case6 s headers cookies pf uc hf s1 hpk h2 c2 s2 hline ih =>
    intro huc hinv
    subst huc
    unfold read_headers_loop
    rw [if_neg hf, hpk]
    dsimp only
    rw [hline]
    exact ih rfl ((read_headers_line_no_exact_cookie s1 headers cookies pf hinv).2
      h2 c2 s2 hline)

theorem read_request_line_keeps_headers (s : IStream) (r : Request) :
    (read_request_line s r).2.1.headers = r.headers ∧
    (read_request_line s r).2.1.cookies = r.cookies := by
  unfold read_request_line
  exact ⟨rfl, rfl⟩

theorem read_request_no_exact_cookie (s : IStream) (r : Request) (pf : Bool) :
    ∀ e ∈ (read_request s r pf false).2.1.headers, e.1 ≠ "Cookie".data := by
  unfold read_request
  dsimp only
  rcases hline : read_request_line s Request.default with ⟨ok, req1, s1⟩
  have hh : req1.headers = [] := by
    have := (read_request_line_keeps_headers s Request.default).1
    rw [hline] at this
    exact this
  match ok with
  | false =>
    dsimp only
    rw [hh]
    simp
  | true =>
    dsimp only
    rcases hrh : read_headers s1 req1.headers req1.cookies pf (!false) with
      ⟨ok2, hs, cks, s2⟩
    have hhs : hs = (read_headers_loop s1 req1.headers [] pf true).2.1 := by
      unfold read_headers at hrh
      rw [show (!false) = true from rfl] at hrh
      rw [if_pos rfl] at hrh
      rw [hrh]
    have hinv := read_headers_loop_no_exact_cookie s1 req1.headers [] pf true rfl
      (by rw [hh]; simp)
    rw [← hhs] at hinv
    match ok2 with
    | false =>
      dsimp only
      exact hinv
    | true =>
      dsimp only
      split
      · split
        · exact hinv
        · split
          · exact hinv
          · split
            · exact hinv
            · exact hinv
      · split
        · exact hinv
        · split
          · exact hinv
          · exact hinv

/-- C2: the claim orders the no-Content-Length cases as 417 when HTTP/1.1
with an Expect header, else OK when no more bytes are available, else 411.
The code instead decides by the stream's eofbit, which a successful header
parse leaves unset even when no data remains, and it tests it before the
Expect check.  At the failing input, a plain GET with the data exhausted,
read_request returns 411 Length Required where the claim requires OK; with
an Expect header present it also returns 411 where the claim requires 417. -/
theorem C2_no_content_length_gives_411 :
    read_request (mkStream "GET /ping HTTP/1.1\x0d\nHost: x\x0d\n\x0d\n")
        Request.default false false =
      (StatusCode.LengthRequired,
       ⟨"GET".data, "/ping".data, protocolHttp11, [("Host".data, "x".data)],
        [], none⟩,
       ⟨[], false, false⟩) ∧
    read_request (mkStream "GET / HTTP/1.1\x0d\nExpect: z\x0d\n\x0d\n")
        Request.default false false =
      (StatusCode.LengthRequired,
       ⟨"GET".data, "/".data, protocolHttp11, [("Expect".data, "z".data)],
        [], none⟩,
       ⟨[], false, false⟩) := by
  constructor
  · rw [← read_requestE_eq]
    decide
  · rw [← read_requestE_eq]
    decide

/-- C3: a request whose headers carry Content-Length, whose protocol is
HTTP/1.1 and whose Expect header equals 100-continue, with the body attaching
without error, makes read_request return the suggested status 100 Continue;
the request records the declared byte count and the returned stream is
exactly the post-header stream, so the declared body bytes are still
unconsumed and readable. -/
theorem C3_expect_continue_suggests_100 (s : IStream) (r0 : Request)
    (pf pc : Bool) (req1 : Request) (s1 : IStream) (hs cks : HeaderList)
    (s2 : IStream) (n : Nat)
    (h1 : read_request_line s Request.default = (true, req1, s1))
    (h2 : read_headers s1 req1.headers req1.cookies pf (!pc) = (true, hs, cks, s2))
    (h3 : headers_contains hs "Content-Length".data = true)
    (h4 : get_data hs = some n)
    (h5 : req1.protocol = protocolHttp11)
    (h6 : headers_get hs "Expect".data = "100-continue".data) :
    read_request s r0 pf pc =
      (StatusCode.Continue,
       { req1 with headers := hs, cookies := cks, body := some n }, s2) := by
  unfold read_request
  dsimp only
  rw [h1]
  dsimp only
  rw [h2]
  dsimp only
  rw [h3, if_pos rfl, h4]
  dsimp only
  rw [if_pos ⟨h5, h6⟩]

/-- Witness for C3 at the expect-continue scenario of the specification. -/
theorem C3_expect_continue_suggests_100_witness :
    read_request (mkStream
        "POST /u HTTP/1.1\x0d\nHost: x\x0d\nContent-Length: 3\x0d\nExpect: 100-continue\x0d\n\x0d\nabc")
        Request.default false false =
      (StatusCode.Continue,
       ⟨"POST".data, "/u".data, protocolHttp11,
        [("Host".data, "x".data), ("Content-Length".data, "3".data),
         ("Expect".data, "100-continue".data)], [], some 3⟩,
       ⟨"abc".data, false, false⟩) :=
  C3_expect_continue_suggests_100
    (mkStream
      "POST /u HTTP/1.1\x0d\nHost: x\x0d\nContent-Length: 3\x0d\nExpect: 100-continue\x0d\n\x0d\nabc")
    Request.default false false
    ⟨"POST".data, "/u".data, protocolHttp11, [], [], none⟩
    ⟨"Host: x\x0d\nContent-Length: 3\x0d\nExpect: 100-continue\x0d\n\x0d\nabc".data,
      false, false⟩
    [("Host".data, "x".data), ("Content-Length".data, "3".data),
     ("Expect".data, "100-continue".data)]
    [] ⟨"abc".data, false, false⟩ 3
    (by rw [← read_request_lineE_eq]; decide)
    (by rw [← read_headersE_eq]; decide)
    (by decide) (by decide) (by decide) (by decide)

/-- C6 counterexample: parsing a request with the header line
cookie: a=b (lower-case name) and PreserveCookieHeaders unset stores the line
in request.headers, where the case-insensitive header map finds it under the
name Cookie, and parses nothing into the cookie map — even though the line is
a Cookie header under the case-insensitive header-name semantics the library
itself uses, so the claim fails on it. -/
theorem C6_counterexample :
    (read_request (mkStream "GET / HTTP/1.1\x0d\ncookie: a=b\x0d\n\x0d\n")
        Request.default false false).2.1.headers =
      [("cookie".data, "a=b".data)] ∧
    headers_contains
      (read_request (mkStream "GET / HTTP/1.1\x0d\ncookie: a=b\x0d\n\x0d\n")
        Request.default false false).2.1.headers "Cookie".data = true ∧
    (read_request (mkStream "GET / HTTP/1.1\x0d\ncookie: a=b\x0d\n\x0d\n")
        Request.default false false).2.1.cookies = [] := by
  refine ⟨?_, ?_, ?_⟩ <;>
    (rw [← read_requestE_eq]; decide)

/-- C6 (amended): with PreserveCookieHeaders unset, each header line whose
name is exactly "Cookie" (the dispatch compares case-sensitively) is consumed
by the cookie sub-parser, which appends its name=value pairs in order to the
request's cookie multimap, and no entry whose name is exactly "Cookie" is
ever stored in request.headers; a differently-cased cookie header line is
stored in headers instead.  The concrete conjuncts show a Cookie line parsed
into the cookie map in order with nothing stored in headers. -/
theorem C6_cookie_dispatch (s : IStream) (r : Request) (pf : Bool) :
    (∀ e ∈ (read_request s r pf false).2.1.headers, e.1 ≠ "Cookie".data) ∧
    (read_request (mkStream "GET / HTTP/1.1\x0d\nCookie: a=b; c=d\x0d\n\x0d\n")
        Request.default false false).2.1.cookies =
      [("a".data, "b".data), ("c".data, "d".data)] ∧
    (read_request (mkStream "GET / HTTP/1.1\x0d\nCookie: a=b; c=d\x0d\n\x0d\n")
        Request.default false false).2.1.headers = [] := by
  refine ⟨read_request_no_exact_cookie s r pf, ?_, ?_⟩ <;>
    (rw [← read_requestE_eq]; decide)

/-- Witness for C6 (amended): at a concrete request the parsed Host entry is
in the headers and its name differs from Cookie. -/
theorem C6_cookie_dispatch_witness :
    (("Host".data, "x".data) ∈
      (read_request (mkStream "GET / HTTP/1.1\x0d\nHost: x\x0d\n\x0d\n")
        Request.default false false).2.1.headers) ∧
    ("Host".data, "x".data).1 ≠ "Cookie".data :=
  ⟨by rw [← read_requestE_eq]; decide,
   (C6_cookie_dispatch (mkStream "GET / HTTP/1.1\x0d\nHost: x\x0d\n\x0d\n")
      Request.default false).1 ("Host".data, "x".data)
     (by rw [← read_requestE_eq]; decide)⟩

/-- C9: read_request assigns a default-constructed Request to its output
argument before parsing, so no field of the caller-supplied request
influences the result or survives the call; and an error status returns the
partially parsed message (here a 411 with the parsed method, target and
headers), not the caller's previous contents. -/
theorem C9_request_reset_no_atomicity :
    (∀ (s : IStream) (r1 r2 : Request) (pf pc : Bool),
        read_request s r1 pf pc = read_request s r2 pf pc) ∧
    read_request (mkStream "POST /u HTTP/1.1\x0d\nHost: x\x0d\n\x0d\nabc")
        ⟨"OLD".data, "/old".data, ⟨"FTP".data, 9, 9⟩, [("K".data, "V".data)],
         [("c".data, "v".data)], some 99⟩ false false =
      (StatusCode.LengthRequired,
       ⟨"POST".data, "/u".data, protocolHttp11, [("Host".data, "x".data)],
        [], none⟩,
       ⟨"abc".data, false, false⟩) := by
  constructor
  · intro s r1 r2 pf pc
    rfl
  · rw [← read_requestE_eq]
    decide

end Httpony
